import Mathlib

/-! Shallow embedding of `igviz/igviz.py` from the plotly-graph repository:
a Plotly figure builder for NetworkX graphs.  Python dicts are modelled as
insertion-ordered association lists, plotly's `None` coordinate sentinel as
`Option.none`, float coordinates as rationals, and fallible dictionary
lookups (`KeyError`) via `Except`. -/

deriving instance DecidableEq for Except

namespace Igviz

/-- Node identifiers, as yielded by `G.nodes()` (modelled as naturals). -/
abbrev NodeId := Nat

/-- Values stored in node and edge attribute dictionaries: integers,
strings, or 2D coordinate pairs (the `pos` attribute). -/
inductive PyVal where
  | int (i : Int)
  | str (s : String)
  | pt (x y : Rat)
  deriving DecidableEq, Repr

/-- Insertion-ordered association-list lookup, i.e. Python `d.get(k)`. -/
def alGet {κ α : Type} [DecidableEq κ] : List (κ × α) → κ → Option α
  | [], _ => none
  | (k, v) :: rest, k' => if k = k' then some v else alGet rest k'

/-- Python `k in d`. -/
def alHas {κ α : Type} [DecidableEq κ] (l : List (κ × α)) (k : κ) : Bool :=
  (alGet l k).isSome

/-- Python `d[k] = v`: replace in place if the key exists, else append
(insertion-ordered dict semantics). -/
def alSet {κ α : Type} [DecidableEq κ] (l : List (κ × α)) (k : κ) (v : α) : List (κ × α) :=
  if alHas l k then l.map (fun kv => if kv.1 = k then (k, v) else kv) else l ++ [(k, v)]

/-- A node or edge attribute dictionary. -/
abbrev Dict := List (String × PyVal)

/-- One edge as yielded by `G.edges(data=True)`: endpoints in yield order
plus the edge's attribute dictionary. -/
structure Edge where
  src : NodeId
  dst : NodeId
  attrs : Dict
  deriving DecidableEq, Repr

/-- A NetworkX graph as the Python code consumes it: the node iteration
order of `G.nodes()`, the edge list yielded by `G.edges(data=True)`,
whether `isinstance(G, (nx.DiGraph, nx.MultiDiGraph))`, and the per-node
attribute dictionaries `G.nodes[n]`. -/
structure Graph where
  nodes : List NodeId
  edges : List Edge
  directed : Bool
  attrs : NodeId → Dict

/-- Python `G.degree(node)`: the number of incident edge endpoints in the
yielded edge list (a self-loop contributes two, as in NetworkX). -/
def Graph.degree (g : Graph) (n : NodeId) : Nat :=
  (g.edges.filter (fun e => e.src == n)).length +
    (g.edges.filter (fun e => e.dst == n)).length

/-- Errors surfaced to the caller: `KeyError` from a node-attribute lookup
at a given node, `KeyError` from the layout-name dispatch dictionary, and
a failed tuple unpacking of a non-pair `pos` value. -/
inductive PyErr where
  | keyError (node : NodeId) (key : String)
  | layoutKeyError (key : String)
  | typeError (node : NodeId) (key : String)
  deriving DecidableEq, Repr

/-- Python `x, y = G.nodes[n]["pos"]`: fails with `KeyError` when the node
has no `pos` attribute. -/
def getPos (g : Graph) (n : NodeId) : Except PyErr (Rat × Rat) :=
  match alGet (g.attrs n) "pos" with
  | some (.pt x y) => .ok (x, y)
  | some _ => .error (.typeError n "pos")
  | none => .error (.keyError n "pos")

/-- The x coordinate of a node's `pos` attribute (0 when absent). -/
def posx (g : Graph) (n : NodeId) : Rat :=
  match alGet (g.attrs n) "pos" with
  | some (.pt x _) => x
  | _ => 0

/-- The y coordinate of a node's `pos` attribute (0 when absent). -/
def posy (g : Graph) (n : NodeId) : Rat :=
  match alGet (g.attrs n) "pos" with
  | some (.pt _ y) => y
  | _ => 0

/-- Whether a node carries a coordinate-pair `pos` attribute. -/
def hasPtPos (g : Graph) (n : NodeId) : Bool :=
  match alGet (g.attrs n) "pos" with
  | some (.pt _ _) => true
  | _ => false

/-- Every node of the graph carries a coordinate-pair position. -/
def allPos (g : Graph) : Bool :=
  g.nodes.all (fun n => hasPtPos g n)

/-- Every edge endpoint is a node of the graph (always true for a
NetworkX graph). -/
def edgesWF (g : Graph) : Bool :=
  g.edges.all (fun e => decide (e.src ∈ g.nodes) && decide (e.dst ∈ g.nodes))

/-- Rendering of a rational number (stands in for Python float display;
no claim depends on its exact form). -/
def ratStr (q : Rat) : String :=
  toString q.num ++ "/" ++ toString q.den

/-- Python `f"{v}"` for an attribute value. -/
def PyVal.format : PyVal → String
  | .int i => toString i
  | .str s => s
  | .pt x y => "(" ++ ratStr x ++ ", " ++ ratStr y ++ ")"

/-- Python `repr(v)`, as used for elements inside a printed list. -/
def PyVal.reprStr : PyVal → String
  | .int i => toString i
  | .str s => "'" ++ s ++ "'"
  | .pt x y => "(" ++ ratStr x ++ ", " ++ ratStr y ++ ")"

/-- Python `f"{vs}"` for a list of attribute values, e.g. `[1, 2]`. -/
def pyListRepr (vs : List PyVal) : String :=
  "[" ++ String.intercalate ", " (vs.map PyVal.reprStr) ++ "]"

/-- A key of the `edge_properties` dictionary: the `(edge[0], edge[1])`
tuple of an edge, in yield order. -/
abbrev PairKey := NodeId × NodeId

/-- The `(edge[0], edge[1])` key of an edge. -/
def pairOf (e : Edge) : PairKey := (e.src, e.dst)

/-- An aggregated per-pair attribute dictionary: property name to the list
of values seen across the pair's parallel edges. -/
abbrev AggDict := List (String × List PyVal)

/-- The `edge_properties` dictionary. -/
abbrev PropsDict := List (PairKey × AggDict)

/-- The inner aggregation loop `for k, v in edge[2].items()`: ensure the
key is present (initially `[]`), then append the value. -/
def aggAttrs (d : AggDict) (attrs : Dict) : AggDict :=
  attrs.foldl
    (fun d kv =>
      match alGet d kv.1 with
      | none => d ++ [(kv.1, [kv.2])]
      | some vs => alSet d kv.1 (vs ++ [kv.2]))
    d

/-- State threaded through the edge loop of `_generate_scatter_trace`:
the edge-trace coordinates, the middle (edge-hover) marker coordinates,
and the `edge_properties` dictionary. -/
structure ELState where
  ex : List (Option Rat)
  ey : List (Option Rat)
  mx : List Rat
  my : List Rat
  props : PropsDict
  deriving DecidableEq, Repr

/-- Body of one edge-loop iteration, given the already-unpacked endpoint
coordinates: extend the edge trace by the two endpoints and a `None`
separator; when edge text is shown, register the `(edge[0], edge[1])`
pair (adding a midpoint hover marker on first sight) and aggregate the
edge's attributes into `edge_properties`. -/
def edgeBody (se : Bool) (st : ELState) (e : Edge) (x0 y0 x1 y1 : Rat) : ELState :=
  let st1 : ELState :=
    { st with
      ex := st.ex ++ [some x0, some x1, none]
      ey := st.ey ++ [some y0, some y1, none] }
  if se then
    let p : PairKey := (e.src, e.dst)
    let st2 : ELState :=
      if alHas st1.props p then st1
      else
        { st1 with
          props := st1.props ++ [(p, [])]
          mx := st1.mx ++ [(x0 + x1) / 2]
          my := st1.my ++ [(y0 + y1) / 2] }
    { st2 with props := alSet st2.props p (aggAttrs ((alGet st2.props p).getD []) e.attrs) }
  else st1

/-- One edge-loop iteration: unpack the endpoint positions (raising
`KeyError` when absent), then run the loop body. -/
def edgeStep (g : Graph) (se : Bool) (st : ELState) (e : Edge) : Except PyErr ELState :=
  match getPos g e.src with
  | .error err => .error err
  | .ok (x0, y0) =>
    match getPos g e.dst with
    | .error err => .error err
    | .ok (x1, y1) => .ok (edgeBody se st e x0 y0 x1 y1)

/-- The loop body evaluated with the (total) position projections; equal
to a successful `edgeStep`. -/
def edgeStepP (g : Graph) (se : Bool) (st : ELState) (e : Edge) : ELState :=
  edgeBody se st e (posx g e.src) (posy g e.src) (posx g e.dst) (posy g e.dst)

/-- The edge loop `for edge in G.edges(data=True)`. -/
def edgeLoop (g : Graph) (se : Bool) : ELState → List Edge → Except PyErr ELState
  | st, [] => .ok st
  | st, e :: es =>
    match edgeStep g se st e with
    | .error err => .error err
    | .ok st' => edgeLoop g se st' es

/-- Sizing and coloring selectors: a string keyword or a verbatim list. -/
inductive SCMethod where
  | str (s : String)
  | list (l : List PyVal)
  deriving DecidableEq, Repr

/-- State threaded through the node loop of `_generate_scatter_trace`. -/
structure NLState where
  nx : List Rat
  ny : List Rat
  ntext : List String
  sizes : List PyVal
  colors : List PyVal
  deriving DecidableEq, Repr

/-- The fixed first part of a node's hover text,
`f"Node: {node}<br>Degree: {G.degree(node)}"`. -/
def baseText (g : Graph) (n : NodeId) : String :=
  "Node: " ++ toString n ++ "<br>Degree: " ++ toString (g.degree n)

/-- The loop `for prop in node_text`, appending one
`f"<br></br>{prop}: {G.nodes[node][prop]}"` line per requested property;
fails with `KeyError` at the first property absent on the node. -/
def buildNodeText (g : Graph) (n : NodeId) : List String → String → Except PyErr String
  | [], acc => .ok acc
  | p :: ps, acc =>
    match alGet (g.attrs n) p with
    | some v => buildNodeText g n ps (acc ++ "<br></br>" ++ p ++ ": " ++ v.format)
    | none => .error (.keyError n p)

/-- Python `str.strip()`: drop whitespace from both ends (structurally
recursive so that concrete hover strings evaluate). -/
def pyStrip (s : String) : String :=
  ⟨((s.data.dropWhile Char.isWhitespace).reverse.dropWhile Char.isWhitespace).reverse⟩

/-- The size-policy branch of the node loop: a list is used verbatim;
`"degree"` appends degree + 12; `"static"` appends 12; any other string is
looked up as a node attribute and fails with `KeyError` when absent. -/
def sizeUpdate (g : Graph) (sm : SCMethod) (n : NodeId) (st : NLState) : Except PyErr NLState :=
  match sm with
  | .list l => .ok { st with sizes := l }
  | .str s =>
    if s = "degree" then .ok { st with sizes := st.sizes ++ [.int (g.degree n + 12)] }
    else if s = "static" then .ok { st with sizes := st.sizes ++ [.int 12] }
    else
      match alGet (g.attrs n) s with
      | some v => .ok { st with sizes := st.sizes ++ [v] }
      | none => .error (.keyError n s)

/-- The color-policy branch of the node loop: a list is used verbatim;
`"degree"` appends the degree; any other string appends the node's value
for that attribute when present, and otherwise the string itself as a
literal color.  This branch never fails. -/
def colorUpdate (g : Graph) (cm : SCMethod) (n : NodeId) (st : NLState) : NLState :=
  match cm with
  | .list l => { st with colors := l }
  | .str c =>
    if c = "degree" then { st with colors := st.colors ++ [.int (g.degree n)] }
    else
      match alGet (g.attrs n) c with
      | some v => { st with colors := st.colors ++ [v] }
      | none => { st with colors := st.colors ++ [.str c] }

/-- One node-loop iteration: build the hover text, unpack the position,
append coordinates and stripped text, then apply the size and color
policies (in that order, mirroring the Python statement order for the
error cases). -/
def nodeStep (g : Graph) (sm cm : SCMethod) (nodeText : List String) (st : NLState)
    (n : NodeId) : Except PyErr NLState :=
  match getPos g n with
  | .error err => .error err
  | .ok (x, y) =>
    match buildNodeText g n nodeText (baseText g n) with
    | .error err => .error err
    | .ok text =>
      match sizeUpdate g sm n
          { st with nx := st.nx ++ [x], ny := st.ny ++ [y], ntext := st.ntext ++ [pyStrip text] } with
      | .error err => .error err
      | .ok st2 => .ok (colorUpdate g cm n st2)

/-- The node loop `for node in G.nodes()`. -/
def nodeLoop (g : Graph) (sm cm : SCMethod) (nodeText : List String) :
    NLState → List NodeId → Except PyErr NLState
  | st, [] => .ok st
  | st, n :: ns =>
    match nodeStep g sm cm nodeText st n with
    | .error err => .error err
    | .ok st' => nodeLoop g sm cm nodeText st' ns

/-- The final `edge_text_list` comprehension: one multi-line string per
tracked pair, each line `f"{k}: {v}"` for an aggregated value list. -/
def edgeTextList (ps : PropsDict) : List String :=
  ps.map (fun pv =>
    String.intercalate "\n" (pv.2.map (fun kv => kv.1 ++ ": " ++ pyListRepr kv.2)))

/-- The edge trace: parallel coordinate lists with `None` separators. -/
structure EdgeTrace where
  x : List (Option Rat)
  y : List (Option Rat)
  deriving DecidableEq, Repr

/-- The invisible edge-hover marker trace. -/
structure MiddleTrace where
  x : List Rat
  y : List Rat
  text : List String
  deriving DecidableEq, Repr

/-- The node marker trace with its parallel sequences and color settings. -/
structure NodeTrace where
  x : List Rat
  y : List Rat
  text : List String
  size : List PyVal
  color : List PyVal
  colorscale : String
  colorbarTitle : String
  deriving DecidableEq, Repr

/-- `_generate_scatter_trace`: run the edge loop, then the node loop, then
assemble the three traces (the middle trace's text is only filled in when
`show_edgetext` is set). -/
def generateScatterTrace (g : Graph) (sm cm : SCMethod) (colorscale colorbarTitle : String)
    (nodeText : List String) (se : Bool) :
    Except PyErr (NodeTrace × EdgeTrace × MiddleTrace) :=
  match edgeLoop g se { ex := [], ey := [], mx := [], my := [], props := [] } g.edges with
  | .error err => .error err
  | .ok est =>
    match nodeLoop g sm cm nodeText
        { nx := [], ny := [], ntext := [], sizes := [], colors := [] } g.nodes with
    | .error err => .error err
    | .ok nst =>
      .ok
        ({ x := nst.nx, y := nst.ny, text := nst.ntext, size := nst.sizes,
           color := nst.colors, colorscale := colorscale, colorbarTitle := colorbarTitle },
         { x := est.ex, y := est.ey },
         { x := est.mx, y := est.my, text := if se then edgeTextList est.props else [] })

/-- A figure annotation: the single caption, or one directional arrow
(anchored at `ax, ay`, pointing at `x, y`). -/
inductive Anno where
  | caption (text : String)
  | arrow (ax ay x y : Rat)
  deriving DecidableEq, Repr

/-- Whether an annotation is a directional arrow. -/
def isArrow : Anno → Bool
  | .arrow _ _ _ _ => true
  | _ => false

/-- Whether an annotation is the caption. -/
def isCaption : Anno → Bool
  | .caption _ => true
  | _ => false

/-- The assembled figure: the three traces plus the display settings and
annotations touched by the claims. -/
structure Figure where
  nodeTrace : NodeTrace
  edgeTrace : EdgeTrace
  middleTrace : MiddleTrace
  title : String
  titlefontSize : Nat
  showlegend : Bool
  annos : List Anno
  deriving DecidableEq, Repr

/-- The `for edge in G.edges()` arrow-annotation loop of
`_generate_figure`: one arrow per edge, anchored at the source node's
position and pointing at the target node's position. -/
def arrowAnnos (g : Graph) : List Edge → Except PyErr (List Anno )
  | [] => .ok []
  | e :: es =>
    match getPos g e.src with
    | .error err => .error err
    | .ok (ax, ay) =>
      match getPos g e.dst with
      | .error err => .error err
      | .ok (x, y) =>
        match arrowAnnos g es with
        | .error err => .error err
        | .ok rest => .ok (Anno.arrow ax ay x y :: rest)

/-- `_generate_figure`: the caption annotation always comes first; when
the graph is directed, one arrow annotation per edge is appended. -/
def generateFigure (g : Graph) (nt : NodeTrace) (et : EdgeTrace) (mt : MiddleTrace)
    (title : String) (titlefontSize : Nat) (showlegend : Bool) (annotationText : String) :
    Except PyErr Figure :=
  match (if g.directed then arrowAnnos g g.edges else .ok []) with
  | .error err => .error err
  | .ok arrows =>
    .ok
      { nodeTrace := nt, edgeTrace := et, middleTrace := mt, title := title,
        titlefontSize := titlefontSize, showlegend := showlegend,
        annos := Anno.caption annotationText :: arrows }

/-- Modelled from the spec: the external NetworkX layout algorithms are
not part of this repository.  Per the spec, each recognized layout name
maps every node of the graph to a 2D position; the `random` layout draws
its coordinates from an external entropy source (here a seed parameter),
while the six other named algorithms are deterministic functions of the
graph. -/
structure LayoutEnv where
  rand : Nat → Graph → NodeId → Rat × Rat
  det : String → Graph → NodeId → Rat × Rat

/-- The `layout_functions` dispatch dictionary of `_apply_layout`: the
seven recognized layout names; anything else is a `KeyError`.  The layout
implementations themselves are modelled from the spec via `LayoutEnv`. -/
def layout_functions (env : LayoutEnv) (seed : Nat) (name : String) :
    Option (Graph → NodeId → Rat × Rat) :=
  if name = "random" then some (env.rand seed)
  else if name ∈ ["circular", "kamada", "planar", "spring", "spectral", "spiral"] then
    some (env.det name)
  else none

/-- `nx.set_node_attributes(G, pos_dict, "pos")` for a position mapping
defined on every node: writes a coordinate-pair `pos` attribute onto each
node of the graph, in place. -/
def setPosAttrs (g : Graph) (f : Graph → NodeId → Rat × Rat) : Graph :=
  { g with
    attrs := fun n =>
      if n ∈ g.nodes then alSet (g.attrs n) "pos" (.pt (f g n).1 (f g n).2) else g.attrs n }

/-- `_apply_layout`: dispatch the layout name (raising `KeyError` when
unrecognized) and write the computed positions onto the graph. -/
def applyLayout (env : LayoutEnv) (seed : Nat) (g : Graph) (name : String) :
    Except PyErr Graph :=
  match layout_functions env seed name with
  | some f => .ok (setPosAttrs g f)
  | none => .error (.layoutKeyError name)

/-- `nx.get_node_attributes(G, key)`: the nodes carrying the attribute,
with their values, in node iteration order. -/
def getNodeAttrs (g : Graph) (key : String) : List (NodeId × PyVal) :=
  g.nodes.filterMap (fun n => (alGet (g.attrs n) key).map (fun v => (n, v)))

/-- Python truthiness of the optional `layout` argument: `None` and the
empty string are falsy. -/
def optStrTruthy : Option String → Bool
  | none => false
  | some s => !(s == "")

/-- The layout-application step at the top of `plot`: an explicitly given
(truthy) layout name is always applied; otherwise the `random` layout is
applied only when no node currently has a `pos` attribute. -/
def layoutStep (env : LayoutEnv) (seed : Nat) (g : Graph) (layout : Option String) :
    Except PyErr Graph :=
  if optStrTruthy layout then applyLayout env seed g (layout.getD "")
  else if getNodeAttrs g "pos" = [] then applyLayout env seed g "random"
  else .ok g

/-- `plot`: apply the layout step, build the scatter traces, and assemble
the figure. -/
def plot (env : LayoutEnv) (seed : Nat) (g : Graph) (title : String)
    (layout : Option String) (sm cm : SCMethod) (nodeText : List String) (se : Bool)
    (titlefontSize : Nat) (showlegend : Bool) (annotationText : String)
    (colorscale colorbarTitle : String) : Except PyErr Figure :=
  match layoutStep env seed g layout with
  | .error err => .error err
  | .ok g2 =>
    match generateScatterTrace g2 sm cm colorscale colorbarTitle nodeText se with
    | .error err => .error err
    | .ok (nt, et, mt) =>
      generateFigure g2 nt et mt title titlefontSize showlegend annotationText

/-- Whether an `Except` result is a success. -/
def exceptOk {α : Type} : Except PyErr α → Bool
  | .ok _ => true
  | .error _ => false

/-- The empty node trace (used as the default of result extractors). -/
def emptyNodeTrace : NodeTrace :=
  { x := [], y := [], text := [], size := [], color := [], colorscale := "",
    colorbarTitle := "" }

/-- Extract a successful scatter-trace triple (empty traces on error). -/
def gstOr (r : Except PyErr (NodeTrace × EdgeTrace × MiddleTrace)) :
    NodeTrace × EdgeTrace × MiddleTrace :=
  match r with
  | .ok t => t
  | .error _ => (emptyNodeTrace, { x := [], y := [] }, { x := [], y := [], text := [] })

/-- Extract a successful figure (an empty figure on error). -/
def figOr (r : Except PyErr Figure) : Figure :=
  match r with
  | .ok f => f
  | .error _ =>
    { nodeTrace := emptyNodeTrace, edgeTrace := { x := [], y := [] },
      middleTrace := { x := [], y := [], text := [] }, title := "",
      titlefontSize := 0, showlegend := false, annos := [] }

/-- Extract a successful graph (the empty graph on error). -/
def graphOr (r : Except PyErr Graph) : Graph :=
  match r with
  | .ok g => g
  | .error _ => { nodes := [], edges := [], directed := false, attrs := fun _ => [] }

/-- Append a pair key if it has not been seen yet. -/
def addPairKey (ks : List PairKey) (p : PairKey) : List PairKey :=
  if p ∈ ks then ks else ks ++ [p]

/-- The distinct `(edge[0], edge[1])` keys of an edge list, in order of
first appearance, starting from an already-seen key list. -/
def distinctPairsFrom (ks : List PairKey) (es : List Edge) : List PairKey :=
  es.foldl (fun ks e => addPairKey ks (pairOf e)) ks

/-- The distinct `(edge[0], edge[1])` keys of an edge list, in order of
first appearance. -/
def distinctPairs (es : List Edge) : List PairKey :=
  distinctPairsFrom [] es

/-- The canonical representative of an unordered node pair. -/
def unorderedKey (p : PairKey) : PairKey :=
  if p.1 ≤ p.2 then p else (p.2, p.1)

/-- Claim-side definition following the spec's words: the distinct
unordered node pairs connected by at least one edge, in order of first
appearance. -/
def distinctUnorderedPairs (es : List Edge) : List PairKey :=
  es.foldl (fun ks e => addPairKey ks (unorderedKey (pairOf e))) []

/-- Aggregate, into an initial dictionary, the attributes of every edge
of a list whose `(edge[0], edge[1])` key equals the given pair. -/
def aggInto (d : AggDict) (es : List Edge) (p : PairKey) : AggDict :=
  es.foldl (fun d e => if pairOf e = p then aggAttrs d e.attrs else d) d

/-- All attribute key/value pairs across the parallel edges of a pair,
aggregated in encounter order. -/
def aggForPair (es : List Edge) (p : PairKey) : AggDict :=
  aggInto [] es p

/-- The hover text of a pair's edge-hover marker: one `key: [values]`
line per aggregated attribute. -/
def pairText (es : List Edge) (p : PairKey) : String :=
  String.intercalate "\n" ((aggForPair es p).map (fun kv => kv.1 ++ ": " ++ pyListRepr kv.2))

/-- The x coordinate of a pair's hover marker: the midpoint of the two
nodes' positions. -/
def midXF (g : Graph) (p : PairKey) : Rat :=
  (posx g p.1 + posx g p.2) / 2

/-- The y coordinate of a pair's hover marker. -/
def midYF (g : Graph) (p : PairKey) : Rat :=
  (posy g p.1 + posy g p.2) / 2

/-- The color assigned to one node by a non-`degree` string color method:
the node's value for the attribute when present, else the string itself
as a literal color. -/
def colorVal (g : Graph) (c : String) (n : NodeId) : PyVal :=
  match alGet (g.attrs n) c with
  | some v => v
  | none => .str c

/-- The first node of a list lacking an attribute key, if any. -/
def firstMissingNode (g : Graph) (key : String) : List NodeId → Option NodeId
  | [] => none
  | n :: ns => if alHas (g.attrs n) key then firstMissingNode g key ns else some n

/-- The first property of a list absent on a node, if any. -/
def firstMissProp (g : Graph) (n : NodeId) : List String → Option String
  | [] => none
  | p :: ps => if alHas (g.attrs n) p then firstMissProp g n ps else some p

/-- The first node (with its first missing property) at which the
node-text hover loop fails, if any. -/
def firstTextMiss (g : Graph) (props : List String) : List NodeId → Option (NodeId × String)
  | [] => none
  | n :: ns =>
    match firstMissProp g n props with
    | some p => some (n, p)
    | none => firstTextMiss g props ns

/-- Node attribute maps given by finitely many entries (all other nodes
have an empty attribute dictionary). -/
def pAttrs (l : List (NodeId × Dict)) : NodeId → Dict :=
  fun n => (alGet l n).getD []

/-- A concrete layout environment placing every node at the origin. -/
def envTriv : LayoutEnv :=
  { rand := fun _ _ _ => (0, 0), det := fun _ _ _ => (0, 0) }

/-- The spec's example: a three-node path graph with positions. -/
def gPath : Graph :=
  { nodes := [0, 1, 2]
    edges := [⟨0, 1, []⟩, ⟨1, 2, []⟩]
    directed := false
    attrs := pAttrs [(0, [("pos", .pt 0 0)]), (1, [("pos", .pt 1 0)]), (2, [("pos", .pt 0 1)])] }

/-- Two nodes joined by two parallel edges carrying `weight` attributes. -/
def gPar : Graph :=
  { nodes := [0, 1]
    edges := [⟨0, 1, [("weight", .int 1)]⟩, ⟨0, 1, [("weight", .int 2)]⟩]
    directed := false
    attrs := pAttrs [(0, [("pos", .pt 0 0)]), (1, [("pos", .pt 1 0)])] }

/-- A directed graph with a pair of mutually opposite edges. -/
def gAnti : Graph :=
  { nodes := [0, 1]
    edges := [⟨0, 1, [("w", .int 1)]⟩, ⟨1, 0, [("w", .int 2)]⟩]
    directed := true
    attrs := pAttrs [(0, [("pos", .pt 0 0)]), (1, [("pos", .pt 1 0)])] }

/-- Two positioned nodes where only the first carries the `grp` and
`size` attributes. -/
def gMix : Graph :=
  { nodes := [0, 1]
    edges := [⟨0, 1, []⟩]
    directed := false
    attrs := pAttrs [(0, [("pos", .pt 0 0), ("grp", .int 5), ("size", .int 30)]),
                     (1, [("pos", .pt 1 0)])] }

/-- Two nodes of which only the first has a position. -/
def gPartial : Graph :=
  { nodes := [0, 1]
    edges := []
    directed := false
    attrs := pAttrs [(0, [("pos", .pt 0 0)])] }

section AssocLemmas

variable {κ α : Type} [DecidableEq κ]

theorem alGet_nil {k : κ} : alGet ([] : List (κ × α)) k = none := rfl

theorem alGet_cons {k0 : κ} {v0 : α} {t : List (κ × α)} {k : κ} :
    alGet ((k0, v0) :: t) k = if k0 = k then some v0 else alGet t k := rfl

theorem alGet_append_of_none {l1 l2 : List (κ × α)} {k : κ} (h : alGet l1 k = none) :
    alGet (l1 ++ l2) k = alGet l2 k := by
  induction l1 with
  | nil => simp
  | cons kv t ih =>
    obtain ⟨k0, v0⟩ := kv
    by_cases hk : k0 = k
    · simp [alGet_cons, hk] at h
    · rw [alGet_cons, if_neg hk] at h
      rw [List.cons_append, alGet_cons, if_neg hk]
      exact ih h

theorem alGet_append_of_some {l1 l2 : List (κ × α)} {k : κ} {v : α}
    (h : alGet l1 k = some v) : alGet (l1 ++ l2) k = some v := by
  induction l1 with
  | nil => simp [alGet] at h
  | cons kv t ih =>
    obtain ⟨k0, v0⟩ := kv
    by_cases hk : k0 = k
    · rw [alGet_cons, if_pos hk] at h
      rw [List.cons_append, alGet_cons, if_pos hk]
      exact h
    · rw [alGet_cons, if_neg hk] at h
      rw [List.cons_append, alGet_cons, if_neg hk]
      exact ih h

theorem alHas_iff_mem {l : List (κ × α)} {k : κ} :
    alHas l k = true ↔ k ∈ l.map Prod.fst := by
  induction l with
  | nil => simp [alHas, alGet]
  | cons kv t ih =>
    obtain ⟨k0, v0⟩ := kv
    by_cases hk : k0 = k
    · subst hk
      simp [alHas, alGet_cons]
    · simp only [alHas, alGet_cons, if_neg hk, List.map_cons, List.mem_cons]
      rw [alHas] at ih
      rw [ih]
      constructor
      · exact fun hm => Or.inr hm
      · rintro (hm | hm)
        · exact absurd hm.symm hk
        · exact hm

theorem alHas_false_get_none {l : List (κ × α)} {k : κ} (h : alHas l k = false) :
    alGet l k = none := by
  unfold alHas at h
  cases hg : alGet l k
  · rfl
  · rw [hg] at h
    simp at h

theorem alGet_mapSet_self {t : List (κ × α)} {k : κ} {v : α} (h : alHas t k = true) :
    alGet (t.map (fun kv => if kv.1 = k then (k, v) else kv)) k = some v := by
  induction t with
  | nil => simp [alHas, alGet] at h
  | cons kv t ih =>
    obtain ⟨k0, v0⟩ := kv
    simp only [List.map_cons]
    by_cases hk : k0 = k
    · subst hk
      simp [alGet_cons]
    · rw [if_neg hk, alGet_cons, if_neg hk]
      apply ih
      rw [alHas, alGet_cons, if_neg hk] at h
      exact h

theorem alGet_mapSet_ne {t : List (κ × α)} {k k' : κ} {v : α} (h : k' ≠ k) :
    alGet (t.map (fun kv => if kv.1 = k then (k, v) else kv)) k' = alGet t k' := by
  induction t with
  | nil => rfl
  | cons kv t ih =>
    obtain ⟨k0, v0⟩ := kv
    simp only [List.map_cons]
    by_cases hk : k0 = k
    · subst hk
      simp [alGet_cons, Ne.symm h, ih]
    · rw [if_neg hk, alGet_cons, alGet_cons]
      split
      · rfl
      · exact ih

theorem alGet_set_self {l : List (κ × α)} {k : κ} {v : α} :
    alGet (alSet l k v) k = some v := by
  unfold alSet
  cases hh : alHas l k with
  | false =>
    rw [if_neg (by simp [hh])]
    rw [alGet_append_of_none (alHas_false_get_none hh)]
    simp [alGet_cons]
  | true =>
    rw [if_pos (by simp [hh])]
    exact alGet_mapSet_self hh

theorem alGet_set_ne {l : List (κ × α)} {k k' : κ} {v : α} (h : k' ≠ k) :
    alGet (alSet l k v) k' = alGet l k' := by
  unfold alSet
  cases hh : alHas l k with
  | false =>
    rw [if_neg (by simp [hh])]
    cases hg : alGet l k' with
    | none =>
      have h1 : alGet (l ++ [(k, v)]) k' = alGet [(k, v)] k' := alGet_append_of_none hg
      rw [h1, alGet_cons, if_neg (fun hkk : k = k' => h hkk.symm)]
      rfl
    | some w => rw [alGet_append_of_some hg]
  | true =>
    rw [if_pos (by simp [hh])]
    exact alGet_mapSet_ne h

theorem alSet_keys_of_has {l : List (κ × α)} {k : κ} {v : α} (h : alHas l k = true) :
    (alSet l k v).map Prod.fst = l.map Prod.fst := by
  unfold alSet
  rw [if_pos (by simp [h])]
  rw [List.map_map]
  apply List.map_congr_left
  intro kv _
  by_cases hk : kv.1 = k
  · simp [Function.comp, hk]
  · simp [Function.comp, hk]

theorem alSet_keys_of_not {l : List (κ × α)} {k : κ} {v : α} (h : alHas l k = false) :
    (alSet l k v).map Prod.fst = l.map Prod.fst ++ [k] := by
  unfold alSet
  rw [if_neg (by simp [h])]
  simp

theorem alSet_length_of_has {l : List (κ × α)} {k : κ} {v : α} (h : alHas l k = true) :
    (alSet l k v).length = l.length := by
  unfold alSet
  rw [if_pos (by simp [h])]
  simp

end AssocLemmas

theorem getPos_eq_ok {g : Graph} {n : NodeId} (h : hasPtPos g n = true) :
    getPos g n = .ok (posx g n, posy g n) := by
  unfold hasPtPos at h
  cases hh : alGet (g.attrs n) "pos" with
  | none => rw [hh] at h; simp at h
  | some v =>
    cases v with
    | int i => rw [hh] at h; simp at h
    | str s => rw [hh] at h; simp at h
    | pt x y => simp [getPos, posx, posy, hh]

theorem getPos_ok_inv {g : Graph} {n : NodeId} {x y : Rat}
    (h : getPos g n = .ok (x, y)) :
    hasPtPos g n = true ∧ posx g n = x ∧ posy g n = y := by
  unfold getPos at h
  cases hh : alGet (g.attrs n) "pos" with
  | none => rw [hh] at h; simp at h
  | some v =>
    cases v with
    | int i => rw [hh] at h; simp at h
    | str s => rw [hh] at h; simp at h
    | pt a b =>
      rw [hh] at h
      simp only [Except.ok.injEq, Prod.mk.injEq] at h
      obtain ⟨hx, hy⟩ := h
      subst hx
      subst hy
      simp [hasPtPos, posx, posy, hh]

theorem alGet_none_keys {κ α : Type} [DecidableEq κ] {l : List (κ × α)} {k : κ}
    (h : alGet l k = none) : ∀ kv ∈ l, kv.1 ≠ k := by
  induction l with
  | nil => simp
  | cons kv t ih =>
    obtain ⟨k0, v0⟩ := kv
    rw [alGet_cons] at h
    intro kv hm
    rcases List.mem_cons.mp hm with hm | hm
    · subst hm
      intro hk
      rw [if_pos hk] at h
      simp at h
    · split at h
      · simp at h
      · exact ih h kv hm

theorem alSet_append_new {κ α : Type} [DecidableEq κ] {l : List (κ × α)} {k : κ}
    {v0 v : α} (h : alGet l k = none) : alSet (l ++ [(k, v0)]) k v = l ++ [(k, v)] := by
  unfold alSet
  have hh : alHas (l ++ [(k, v0)]) k = true := by
    unfold alHas
    rw [alGet_append_of_none h, alGet_cons, if_pos rfl]
    rfl
  rw [if_pos (by simp [hh])]
  rw [List.map_append]
  congr 1
  · have hcg : ∀ kv ∈ l, (fun kv : κ × α => if kv.1 = k then (k, v) else kv) kv = id kv := by
      intro kv hm
      simp only [id]
      exact if_neg (alGet_none_keys h kv hm)
    rw [List.map_congr_left hcg, List.map_id]
  · simp

theorem edgeBody_false_eq {st : ELState} {e : Edge} {x0 y0 x1 y1 : Rat} :
    edgeBody false st e x0 y0 x1 y1 =
      { st with
        ex := st.ex ++ [some x0, some x1, none]
        ey := st.ey ++ [some y0, some y1, none] } := by
  rfl

theorem edgeBody_true_seen {st : ELState} {e : Edge} {x0 y0 x1 y1 : Rat} {d : AggDict}
    (hd : alGet st.props (pairOf e) = some d) :
    edgeBody true st e x0 y0 x1 y1 =
      { st with
        ex := st.ex ++ [some x0, some x1, none]
        ey := st.ey ++ [some y0, some y1, none]
        props := alSet st.props (pairOf e) (aggAttrs d e.attrs) } := by
  have hh : alHas st.props (pairOf e) = true := by
    unfold alHas
    rw [hd]
    rfl
  unfold edgeBody pairOf at *
  simp [hh, hd]

theorem edgeBody_true_new {st : ELState} {e : Edge} {x0 y0 x1 y1 : Rat}
    (hd : alGet st.props (pairOf e) = none) :
    edgeBody true st e x0 y0 x1 y1 =
      { ex := st.ex ++ [some x0, some x1, none]
        ey := st.ey ++ [some y0, some y1, none]
        mx := st.mx ++ [(x0 + x1) / 2]
        my := st.my ++ [(y0 + y1) / 2]
        props := st.props ++ [(pairOf e, aggAttrs [] e.attrs)] } := by
  have hh : alHas st.props (pairOf e) = false := by
    unfold alHas
    rw [hd]
    rfl
  have hget : alGet (st.props ++ [(pairOf e, [])]) (pairOf e) = some ([] : AggDict) := by
    rw [alGet_append_of_none hd, alGet_cons, if_pos rfl]
  have hset := @alSet_append_new _ _ _ st.props (pairOf e) ([] : AggDict) (aggAttrs [] e.attrs) hd
  unfold edgeBody pairOf at *
  simp [hh, hget, hset]

theorem edgeStep_eq_ok {g : Graph} {se : Bool} {st : ELState} {e : Edge}
    (hs : hasPtPos g e.src = true) (hd : hasPtPos g e.dst = true) :
    edgeStep g se st e = .ok (edgeStepP g se st e) := by
  unfold edgeStep edgeStepP
  rw [getPos_eq_ok hs, getPos_eq_ok hd]

theorem edgeStep_ok_inv {g : Graph} {se : Bool} {st st' : ELState} {e : Edge}
    (h : edgeStep g se st e = .ok st') :
    hasPtPos g e.src = true ∧ hasPtPos g e.dst = true ∧ st' = edgeStepP g se st e := by
  unfold edgeStep at h
  cases hs : getPos g e.src with
  | error err => rw [hs] at h; simp at h
  | ok xy =>
    obtain ⟨x0, y0⟩ := xy
    rw [hs] at h
    cases hdd : getPos g e.dst with
    | error err => rw [hdd] at h; simp at h
    | ok xy2 =>
      obtain ⟨x1, y1⟩ := xy2
      rw [hdd] at h
      simp only [Except.ok.injEq] at h
      obtain ⟨hps, hxs, hys⟩ := getPos_ok_inv hs
      obtain ⟨hpd, hxd, hyd⟩ := getPos_ok_inv hdd
      refine ⟨hps, hpd, ?_⟩
      rw [← h]
      unfold edgeStepP
      rw [hxs, hys, hxd, hyd]

theorem edgeLoop_ok_lengths {g : Graph} {se : Bool} :
    ∀ {es : List Edge} {st st' : ELState}, edgeLoop g se st es = .ok st' →
      st'.ex.length = st.ex.length + 3 * es.length ∧
        st'.ey.length = st.ey.length + 3 * es.length := by
  intro es
  induction es with
  | nil =>
    intro st st' h
    rw [edgeLoop] at h
    simp only [Except.ok.injEq] at h
    subst h
    simp
  | cons e es ih =>
    intro st st' h
    rw [edgeLoop] at h
    cases h1 : edgeStep g se st e with
    | error err => rw [h1] at h; simp at h
    | ok st1 =>
      rw [h1] at h
      obtain ⟨ihx, ihy⟩ := ih h
      obtain ⟨-, -, hst1⟩ := edgeStep_ok_inv h1
      subst hst1
      have hex : (edgeStepP g se st e).ex = st.ex ++ [some (posx g e.src), some (posx g e.dst), none] := by
        unfold edgeStepP
        cases se
        · rw [edgeBody_false_eq]
        · cases hd : alGet st.props (pairOf e) with
          | none => rw [edgeBody_true_new hd]
          | some d => rw [edgeBody_true_seen hd]
      have hey : (edgeStepP g se st e).ey = st.ey ++ [some (posy g e.src), some (posy g e.dst), none] := by
        unfold edgeStepP
        cases se
        · rw [edgeBody_false_eq]
        · cases hd : alGet st.props (pairOf e) with
          | none => rw [edgeBody_true_new hd]
          | some d => rw [edgeBody_true_seen hd]
      rw [hex] at ihx
      rw [hey] at ihy
      simp only [List.length_append, List.length_cons, List.length_nil] at ihx ihy
      constructor
      · rw [ihx]
        simp [Nat.mul_succ]
        omega
      · rw [ihy]
        simp [Nat.mul_succ]
        omega

theorem distinctPairsFrom_cons {ks : List PairKey} {e : Edge} {es : List Edge} :
    distinctPairsFrom ks (e :: es) = distinctPairsFrom (addPairKey ks (pairOf e)) es := rfl

theorem aggInto_cons {d : AggDict} {e : Edge} {es : List Edge} {p : PairKey} :
    aggInto d (e :: es) p = aggInto (if pairOf e = p then aggAttrs d e.attrs else d) es p := rfl

theorem edgeStepP_props_keys {g : Graph} {st : ELState} {e : Edge} :
    (edgeStepP g true st e).props.map Prod.fst =
      addPairKey (st.props.map Prod.fst) (pairOf e) := by
  unfold edgeStepP
  cases hd : alGet st.props (pairOf e) with
  | none =>
    rw [edgeBody_true_new hd]
    unfold addPairKey
    rw [if_neg (fun hm => by
      have hh := alHas_iff_mem.mpr hm
      rw [alHas, hd] at hh
      simp at hh)]
    simp
  | some d =>
    rw [edgeBody_true_seen hd]
    unfold addPairKey
    rw [if_pos (alHas_iff_mem.mp (by rw [alHas, hd]; rfl))]
    exact alSet_keys_of_has (by rw [alHas, hd]; rfl)

theorem edgeStepP_mx {g : Graph} {st : ELState} {e : Edge}
    (hmx : st.mx = (st.props.map Prod.fst).map (midXF g)) :
    (edgeStepP g true st e).mx = ((edgeStepP g true st e).props.map Prod.fst).map (midXF g) := by
  rw [edgeStepP_props_keys]
  unfold edgeStepP
  cases hd : alGet st.props (pairOf e) with
  | none =>
    rw [edgeBody_true_new hd]
    unfold addPairKey
    rw [if_neg (fun hm => by
      have hh := alHas_iff_mem.mpr hm
      rw [alHas, hd] at hh
      simp at hh)]
    simp only [List.map_append, List.map_cons, List.map_nil]
    rw [hmx]
    rfl
  | some d =>
    rw [edgeBody_true_seen hd]
    unfold addPairKey
    rw [if_pos (alHas_iff_mem.mp (by rw [alHas, hd]; rfl))]
    exact hmx

theorem edgeStepP_my {g : Graph} {st : ELState} {e : Edge}
    (hmy : st.my = (st.props.map Prod.fst).map (midYF g)) :
    (edgeStepP g true st e).my = ((edgeStepP g true st e).props.map Prod.fst).map (midYF g) := by
  rw [edgeStepP_props_keys]
  unfold edgeStepP
  cases hd : alGet st.props (pairOf e) with
  | none =>
    rw [edgeBody_true_new hd]
    unfold addPairKey
    rw [if_neg (fun hm => by
      have hh := alHas_iff_mem.mpr hm
      rw [alHas, hd] at hh
      simp at hh)]
    simp only [List.map_append, List.map_cons, List.map_nil]
    rw [hmy]
    rfl
  | some d =>
    rw [edgeBody_true_seen hd]
    unfold addPairKey
    rw [if_pos (alHas_iff_mem.mp (by rw [alHas, hd]; rfl))]
    exact hmy

theorem edgeStepP_get_self {g : Graph} {st : ELState} {e : Edge} :
    alGet (edgeStepP g true st e).props (pairOf e) =
      some (aggAttrs ((alGet st.props (pairOf e)).getD []) e.attrs) := by
  unfold edgeStepP
  cases hd : alGet st.props (pairOf e) with
  | none =>
    rw [edgeBody_true_new hd]
    simp only [Option.getD_none]
    rw [alGet_append_of_none hd, alGet_cons, if_pos rfl]
  | some d =>
    rw [edgeBody_true_seen hd]
    simp only [Option.getD_some]
    exact alGet_set_self

theorem edgeStepP_get_ne {g : Graph} {st : ELState} {e : Edge} {q : PairKey}
    (h : q ≠ pairOf e) :
    alGet (edgeStepP g true st e).props q = alGet st.props q := by
  unfold edgeStepP
  cases hd : alGet st.props (pairOf e) with
  | none =>
    rw [edgeBody_true_new hd]
    cases hq : alGet st.props q with
    | none =>
      rw [alGet_append_of_none hq, alGet_cons, if_neg (fun hk : pairOf e = q => h hk.symm)]
      rfl
    | some w => rw [alGet_append_of_some hq]
  | some d =>
    rw [edgeBody_true_seen hd]
    exact alGet_set_ne h

theorem edgeLoop_true_keys {g : Graph} :
    ∀ {es : List Edge} {st st' : ELState}, edgeLoop g true st es = .ok st' →
      st'.props.map Prod.fst = distinctPairsFrom (st.props.map Prod.fst) es := by
  intro es
  induction es with
  | nil =>
    intro st st' h
    rw [edgeLoop] at h
    simp only [Except.ok.injEq] at h
    subst h
    rfl
  | cons e es ih =>
    intro st st' h
    rw [edgeLoop] at h
    cases h1 : edgeStep g true st e with
    | error err => rw [h1] at h; simp at h
    | ok st1 =>
      rw [h1] at h
      obtain ⟨-, -, hst1⟩ := edgeStep_ok_inv h1
      subst hst1
      rw [distinctPairsFrom_cons, ← edgeStepP_props_keys]
      exact ih h

theorem edgeLoop_true_mx {g : Graph} :
    ∀ {es : List Edge} {st st' : ELState}, edgeLoop g true st es = .ok st' →
      st.mx = (st.props.map Prod.fst).map (midXF g) →
      st'.mx = (st'.props.map Prod.fst).map (midXF g) := by
  intro es
  induction es with
  | nil =>
    intro st st' h hmx
    rw [edgeLoop] at h
    simp only [Except.ok.injEq] at h
    subst h
    exact hmx
  | cons e es ih =>
    intro st st' h hmx
    rw [edgeLoop] at h
    cases h1 : edgeStep g true st e with
    | error err => rw [h1] at h; simp at h
    | ok st1 =>
      rw [h1] at h
      obtain ⟨-, -, hst1⟩ := edgeStep_ok_inv h1
      subst hst1
      exact ih h (edgeStepP_mx hmx)

theorem edgeLoop_true_my {g : Graph} :
    ∀ {es : List Edge} {st st' : ELState}, edgeLoop g true st es = .ok st' →
      st.my = (st.props.map Prod.fst).map (midYF g) →
      st'.my = (st'.props.map Prod.fst).map (midYF g) := by
  intro es
  induction es with
  | nil =>
    intro st st' h hmy
    rw [edgeLoop] at h
    simp only [Except.ok.injEq] at h
    subst h
    exact hmy
  | cons e es ih =>
    intro st st' h hmy
    rw [edgeLoop] at h
    cases h1 : edgeStep g true st e with
    | error err => rw [h1] at h; simp at h
    | ok st1 =>
      rw [h1] at h
      obtain ⟨-, -, hst1⟩ := edgeStep_ok_inv h1
      subst hst1
      exact ih h (edgeStepP_my hmy)

theorem edgeLoop_true_get {g : Graph} :
    ∀ {es : List Edge} {st st' : ELState}, edgeLoop g true st es = .ok st' →
      ∀ p : PairKey,
        alGet st'.props p =
          match alGet st.props p with
          | some d => some (aggInto d es p)
          | none =>
            if es.any (fun e => decide (pairOf e = p)) then some (aggInto [] es p) else none := by
  intro es
  induction es with
  | nil =>
    intro st st' h p
    rw [edgeLoop] at h
    simp only [Except.ok.injEq] at h
    subst h
    cases hd : alGet st.props p
    · simp [aggInto]
    · simp [aggInto]
  | cons e es ih =>
    intro st st' h p
    rw [edgeLoop] at h
    cases h1 : edgeStep g true st e with
    | error err => rw [h1] at h; simp at h
    | ok st1 =>
      rw [h1] at h
      obtain ⟨-, -, hst1⟩ := edgeStep_ok_inv h1
      subst hst1
      have hih := ih h p
      by_cases hp : p = pairOf e
      · subst hp
        rw [edgeStepP_get_self] at hih
        cases hd : alGet st.props (pairOf e) with
        | none =>
          rw [hd] at hih
          simp only [Option.getD_none] at hih
          rw [hih, aggInto_cons, if_pos rfl]
          simp [List.any_cons]
        | some d =>
          rw [hd] at hih
          simp only [Option.getD_some] at hih
          rw [hih]
          show some (aggInto (aggAttrs d e.attrs) es (pairOf e)) =
            some (aggInto d (e :: es) (pairOf e))
          rw [aggInto_cons, if_pos rfl]
      · have hne : pairOf e ≠ p := fun hk => hp hk.symm
        have hdec : decide (pairOf e = p) = false := by simp [hne]
        rw [edgeStepP_get_ne hp] at hih
        rw [hih]
        cases hd : alGet st.props p with
        | none =>
          simp only [List.any_cons, hdec, Bool.false_or, aggInto_cons, if_neg hne]
        | some d =>
          simp only [aggInto_cons, if_neg hne]

theorem mem_distinctPairsFrom :
    ∀ {es : List Edge} {ks : List PairKey} {p : PairKey},
      p ∈ distinctPairsFrom ks es ↔ p ∈ ks ∨ ∃ e, e ∈ es ∧ pairOf e = p := by
  intro es
  induction es with
  | nil => intro ks p; simp [distinctPairsFrom]
  | cons e es ih =>
    intro ks p
    rw [distinctPairsFrom_cons, ih]
    unfold addPairKey
    by_cases hm : pairOf e ∈ ks
    · rw [if_pos hm]
      constructor
      · rintro (hp | hp)
        · exact Or.inl hp
        · exact Or.inr ⟨hp.choose, List.mem_cons_of_mem e hp.choose_spec.1, hp.choose_spec.2⟩
      · rintro (hp | ⟨e', he', hpe⟩)
        · exact Or.inl hp
        · rcases List.mem_cons.mp he' with he' | he'
          · subst he'
            subst hpe
            exact Or.inl hm
          · exact Or.inr ⟨e', he', hpe⟩
    · rw [if_neg hm]
      constructor
      · rintro (hp | hp)
        · rcases List.mem_append.mp hp with hp | hp
          · exact Or.inl hp
          · rcases List.mem_singleton.mp hp with hp
            exact Or.inr ⟨e, List.mem_cons_self e es, hp.symm⟩
        · exact Or.inr ⟨hp.choose, List.mem_cons_of_mem e hp.choose_spec.1, hp.choose_spec.2⟩
      · rintro (hp | ⟨e', he', hpe⟩)
        · exact Or.inl (List.mem_append.mpr (Or.inl hp))
        · rcases List.mem_cons.mp he' with he' | he'
          · subst he'
            exact Or.inl (List.mem_append.mpr (Or.inr (List.mem_singleton.mpr hpe.symm)))
          · exact Or.inr ⟨e', he', hpe⟩

theorem nodup_distinctPairsFrom :
    ∀ {es : List Edge} {ks : List PairKey}, ks.Nodup → (distinctPairsFrom ks es).Nodup := by
  intro es
  induction es with
  | nil => intro ks h; exact h
  | cons e es ih =>
    intro ks h
    rw [distinctPairsFrom_cons]
    apply ih
    unfold addPairKey
    by_cases hm : pairOf e ∈ ks
    · rw [if_pos hm]; exact h
    · rw [if_neg hm]
      simp [List.nodup_append, h, hm]

theorem alEq_of_keys_get {κ α : Type} [DecidableEq κ] :
    ∀ {ps : List (κ × α)} {ks : List κ} {f : κ → α},
      ps.map Prod.fst = ks → ks.Nodup → (∀ p ∈ ks, alGet ps p = some (f p)) →
      ps = ks.map (fun p => (p, f p)) := by
  intro ps
  induction ps with
  | nil =>
    intro ks f hk _ _
    rw [← hk]
    rfl
  | cons kv t ih =>
    intro ks f hk hnd hget
    obtain ⟨k0, v0⟩ := kv
    cases ks with
    | nil => simp at hk
    | cons k1 kt =>
      simp only [List.map_cons, List.cons.injEq] at hk
      obtain ⟨hk0, hkt⟩ := hk
      subst hk0
      have hnd1 : k0 ∉ kt := (List.nodup_cons.mp hnd).1
      have hnd2 : kt.Nodup := (List.nodup_cons.mp hnd).2
      have hv0 : v0 = f k0 := by
        have := hget k0 (List.mem_cons_self k0 kt)
        rw [alGet_cons, if_pos rfl] at this
        exact (Option.some.injEq _ _).mp this
      subst hv0
      simp only [List.map_cons, List.cons.injEq]
      refine ⟨trivial, ?_⟩
      apply ih hkt hnd2
      intro p hp
      have hne : k0 ≠ p := fun hk => by
        subst hk
        exact hnd1 hp
      have := hget p (List.mem_cons_of_mem k0 hp)
      rw [alGet_cons, if_neg hne] at this
      exact this

theorem sizeUpdate_degree {g : Graph} {n : NodeId} {st : NLState} :
    sizeUpdate g (.str "degree") n st =
      .ok { st with sizes := st.sizes ++ [.int (g.degree n + 12)] } := by
  simp [sizeUpdate]

theorem sizeUpdate_static {g : Graph} {n : NodeId} {st : NLState} :
    sizeUpdate g (.str "static") n st = .ok { st with sizes := st.sizes ++ [.int 12] } := by
  simp [sizeUpdate]

theorem sizeUpdate_attr_some {g : Graph} {n : NodeId} {st : NLState} {s : String} {v : PyVal}
    (h1 : s ≠ "degree") (h2 : s ≠ "static") (hv : alGet (g.attrs n) s = some v) :
    sizeUpdate g (.str s) n st = .ok { st with sizes := st.sizes ++ [v] } := by
  simp only [sizeUpdate]
  rw [if_neg h1, if_neg h2, hv]

theorem sizeUpdate_attr_none {g : Graph} {n : NodeId} {st : NLState} {s : String}
    (h1 : s ≠ "degree") (h2 : s ≠ "static") (hv : alGet (g.attrs n) s = none) :
    sizeUpdate g (.str s) n st = .error (.keyError n s) := by
  simp only [sizeUpdate]
  rw [if_neg h1, if_neg h2, hv]

theorem sizeUpdate_ok_pres {g : Graph} {sm : SCMethod} {n : NodeId} {st st2 : NLState}
    (h : sizeUpdate g sm n st = .ok st2) :
    st2.nx = st.nx ∧ st2.ny = st.ny ∧ st2.ntext = st.ntext ∧ st2.colors = st.colors := by
  cases sm with
  | list l =>
    simp only [sizeUpdate, Except.ok.injEq] at h
    subst h
    exact ⟨rfl, rfl, rfl, rfl⟩
  | str s =>
    simp only [sizeUpdate] at h
    by_cases hs1 : s = "degree"
    · rw [if_pos hs1] at h
      simp only [Except.ok.injEq] at h
      subst h
      exact ⟨rfl, rfl, rfl, rfl⟩
    · rw [if_neg hs1] at h
      by_cases hs2 : s = "static"
      · rw [if_pos hs2] at h
        simp only [Except.ok.injEq] at h
        subst h
        exact ⟨rfl, rfl, rfl, rfl⟩
      · rw [if_neg hs2] at h
        cases hv : alGet (g.attrs n) s with
        | none => rw [hv] at h; simp at h
        | some v =>
          rw [hv] at h
          simp only [Except.ok.injEq] at h
          subst h
          exact ⟨rfl, rfl, rfl, rfl⟩

theorem sizeUpdate_str_ok_len {g : Graph} {s : String} {n : NodeId} {st st2 : NLState}
    (h : sizeUpdate g (.str s) n st = .ok st2) :
    st2.sizes.length = st.sizes.length + 1 := by
  simp only [sizeUpdate] at h
  by_cases hs1 : s = "degree"
  · rw [if_pos hs1] at h
    simp only [Except.ok.injEq] at h
    subst h
    simp
  · rw [if_neg hs1] at h
    by_cases hs2 : s = "static"
    · rw [if_pos hs2] at h
      simp only [Except.ok.injEq] at h
      subst h
      simp
    · rw [if_neg hs2] at h
      cases hv : alGet (g.attrs n) s with
      | none => rw [hv] at h; simp at h
      | some v =>
        rw [hv] at h
        simp only [Except.ok.injEq] at h
        subst h
        simp

theorem colorUpdate_degree {g : Graph} {n : NodeId} {st : NLState} :
    colorUpdate g (.str "degree") n st = { st with colors := st.colors ++ [.int (g.degree n)] } := by
  simp [colorUpdate]

theorem colorUpdate_other {g : Graph} {c : String} {n : NodeId} {st : NLState}
    (h : c ≠ "degree") :
    colorUpdate g (.str c) n st = { st with colors := st.colors ++ [colorVal g c n] } := by
  simp only [colorUpdate, colorVal]
  rw [if_neg h]
  cases hv : alGet (g.attrs n) c <;> rfl

theorem colorUpdate_pres {g : Graph} {cm : SCMethod} {n : NodeId} {st : NLState} :
    (colorUpdate g cm n st).nx = st.nx ∧ (colorUpdate g cm n st).ny = st.ny ∧
      (colorUpdate g cm n st).ntext = st.ntext ∧ (colorUpdate g cm n st).sizes = st.sizes := by
  cases cm with
  | list l => exact ⟨rfl, rfl, rfl, rfl⟩
  | str c =>
    simp only [colorUpdate]
    by_cases hc : c = "degree"
    · rw [if_pos hc]
      exact ⟨rfl, rfl, rfl, rfl⟩
    · rw [if_neg hc]
      cases hv : alGet (g.attrs n) c
      · exact ⟨rfl, rfl, rfl, rfl⟩
      · exact ⟨rfl, rfl, rfl, rfl⟩

theorem colorUpdate_str_len {g : Graph} {c : String} {n : NodeId} {st : NLState} :
    (colorUpdate g (.str c) n st).colors.length = st.colors.length + 1 := by
  simp only [colorUpdate]
  by_cases hc : c = "degree"
  · rw [if_pos hc]
    simp
  · rw [if_neg hc]
    cases hv : alGet (g.attrs n) c
    · simp
    · simp

theorem buildNodeText_nil {g : Graph} {n : NodeId} {acc : String} :
    buildNodeText g n [] acc = .ok acc := rfl

theorem buildNodeText_ok_of_none {g : Graph} {n : NodeId} :
    ∀ {ps : List String} {acc : String}, firstMissProp g n ps = none →
      ∃ t, buildNodeText g n ps acc = .ok t := by
  intro ps
  induction ps with
  | nil => intro acc _; exact ⟨acc, rfl⟩
  | cons p ps ih =>
    intro acc h
    rw [firstMissProp] at h
    by_cases hm : alHas (g.attrs n) p = true
    · rw [if_pos hm] at h
      cases hv : alGet (g.attrs n) p with
      | none => rw [alHas, hv] at hm; simp at hm
      | some v =>
        rw [buildNodeText, hv]
        exact ih h
    · rw [if_neg hm] at h
      simp at h

theorem buildNodeText_error {g : Graph} {n : NodeId} :
    ∀ {ps : List String} {acc : String} {p : String}, firstMissProp g n ps = some p →
      buildNodeText g n ps acc = .error (.keyError n p) := by
  intro ps
  induction ps with
  | nil => intro acc p h; simp [firstMissProp] at h
  | cons p0 ps ih =>
    intro acc p h
    rw [firstMissProp] at h
    by_cases hm : alHas (g.attrs n) p0 = true
    · rw [if_pos hm] at h
      cases hv : alGet (g.attrs n) p0 with
      | none => rw [alHas, hv] at hm; simp at hm
      | some v =>
        rw [buildNodeText, hv]
        exact ih h
    · rw [if_neg hm] at h
      simp only [Option.some.injEq] at h
      subst h
      have hnone : alGet (g.attrs n) p0 = none := alHas_false_get_none (by
        cases hmm : alHas (g.attrs n) p0 with
        | false => rfl
        | true => exact absurd hmm hm)
      simp only [buildNodeText, hnone]

theorem nodeStep_ok_inv {g : Graph} {sm cm : SCMethod} {nt : List String}
    {st st' : NLState} {n : NodeId} (h : nodeStep g sm cm nt st n = .ok st') :
    ∃ text st2,
      hasPtPos g n = true ∧
      buildNodeText g n nt (baseText g n) = .ok text ∧
      sizeUpdate g sm n
        { st with nx := st.nx ++ [posx g n], ny := st.ny ++ [posy g n],
                  ntext := st.ntext ++ [pyStrip text] } = .ok st2 ∧
      st' = colorUpdate g cm n st2 := by
  unfold nodeStep at h
  cases hp : getPos g n with
  | error err => rw [hp] at h; simp at h
  | ok xy =>
    obtain ⟨x, y⟩ := xy
    rw [hp] at h
    obtain ⟨hpt, hx, hy⟩ := getPos_ok_inv hp
    cases hbt : buildNodeText g n nt (baseText g n) with
    | error err => rw [hbt] at h; simp at h
    | ok text =>
      rw [hbt] at h
      replace h :
          (match sizeUpdate g sm n
              { st with nx := st.nx ++ [x], ny := st.ny ++ [y],
                        ntext := st.ntext ++ [pyStrip text] } with
            | .error err => (.error err : Except PyErr NLState)
            | .ok st2 => .ok (colorUpdate g cm n st2)) = .ok st' := h
      cases hsu : sizeUpdate g sm n
          { st with nx := st.nx ++ [x], ny := st.ny ++ [y],
                    ntext := st.ntext ++ [pyStrip text] } with
      | error err => rw [hsu] at h; simp at h
      | ok st2 =>
        rw [hsu] at h
        simp only [Except.ok.injEq] at h
        refine ⟨text, st2, hpt, rfl, ?_, h.symm⟩
        rw [hx, hy]
        exact hsu

theorem hasPtPos_of_allPos {g : Graph} {n : NodeId} (hA : allPos g = true)
    (hn : n ∈ g.nodes) : hasPtPos g n = true := by
  unfold allPos at hA
  exact List.all_eq_true.mp hA n hn

theorem endpoints_of_edgesWF {g : Graph} {e : Edge} (hE : edgesWF g = true)
    (he : e ∈ g.edges) : e.src ∈ g.nodes ∧ e.dst ∈ g.nodes := by
  unfold edgesWF at hE
  have hb := List.all_eq_true.mp hE e he
  simp only [Bool.and_eq_true, decide_eq_true_eq] at hb
  exact hb

theorem nodeStep_eq_pipeline {g : Graph} {sm cm : SCMethod} {nt : List String}
    {st : NLState} {n : NodeId} {text : String}
    (hp : hasPtPos g n = true) (hbt : buildNodeText g n nt (baseText g n) = .ok text) :
    nodeStep g sm cm nt st n =
      match sizeUpdate g sm n
          { st with nx := st.nx ++ [posx g n], ny := st.ny ++ [posy g n],
                    ntext := st.ntext ++ [pyStrip text] } with
      | .error err => .error err
      | .ok st2 => .ok (colorUpdate g cm n st2) := by
  unfold nodeStep
  rw [getPos_eq_ok hp, hbt]

theorem nodeStep_degree_ok {g : Graph} {cm : SCMethod} {nt : List String}
    {st : NLState} {n : NodeId} (hp : hasPtPos g n = true)
    (ht : firstMissProp g n nt = none) :
    ∃ st', nodeStep g (.str "degree") cm nt st n = .ok st' := by
  obtain ⟨t, hbt⟩ := buildNodeText_ok_of_none ht
  rw [nodeStep_eq_pipeline hp hbt, sizeUpdate_degree]
  exact ⟨_, rfl⟩

theorem nodeStep_attr_ok {g : Graph} {cm : SCMethod} {nt : List String}
    {st : NLState} {n : NodeId} {s : String} {v : PyVal} (hp : hasPtPos g n = true)
    (ht : firstMissProp g n nt = none) (h1 : s ≠ "degree") (h2 : s ≠ "static")
    (hv : alGet (g.attrs n) s = some v) :
    ∃ st', nodeStep g (.str s) cm nt st n = .ok st' := by
  obtain ⟨t, hbt⟩ := buildNodeText_ok_of_none ht
  rw [nodeStep_eq_pipeline hp hbt, sizeUpdate_attr_some h1 h2 hv]
  exact ⟨_, rfl⟩

theorem nodeStep_attr_err {g : Graph} {cm : SCMethod} {nt : List String}
    {st : NLState} {n : NodeId} {s : String} (hp : hasPtPos g n = true)
    (ht : firstMissProp g n nt = none) (h1 : s ≠ "degree") (h2 : s ≠ "static")
    (hv : alGet (g.attrs n) s = none) :
    nodeStep g (.str s) cm nt st n = .error (.keyError n s) := by
  obtain ⟨t, hbt⟩ := buildNodeText_ok_of_none ht
  rw [nodeStep_eq_pipeline hp hbt, sizeUpdate_attr_none h1 h2 hv]

theorem nodeStep_text_err {g : Graph} {sm cm : SCMethod} {nt : List String}
    {st : NLState} {n : NodeId} {p : String} (hp : hasPtPos g n = true)
    (ht : firstMissProp g n nt = some p) :
    nodeStep g sm cm nt st n = .error (.keyError n p) := by
  unfold nodeStep
  rw [getPos_eq_ok hp, buildNodeText_error ht]

theorem nodeLoop_ok_acc {g : Graph} {sm cm : SCMethod} {nt : List String} :
    ∀ {ns : List NodeId} {st st' : NLState}, nodeLoop g sm cm nt st ns = .ok st' →
      st'.nx = st.nx ++ ns.map (posx g) ∧ st'.ny = st.ny ++ ns.map (posy g) ∧
        st'.ntext.length = st.ntext.length + ns.length := by
  intro ns
  induction ns with
  | nil =>
    intro st st' h
    rw [nodeLoop] at h
    simp only [Except.ok.injEq] at h
    subst h
    simp
  | cons n ns ih =>
    intro st st' h
    rw [nodeLoop] at h
    cases h1 : nodeStep g sm cm nt st n with
    | error err => rw [h1] at h; simp at h
    | ok st1 =>
      rw [h1] at h
      obtain ⟨hx, hy, htl⟩ := ih h
      obtain ⟨text, st2, hpt, hbt, hsu, hco⟩ := nodeStep_ok_inv h1
      obtain ⟨hsx, hsy, hstx, -⟩ := sizeUpdate_ok_pres hsu
      obtain ⟨hcx, hcy, hctx, -⟩ := @colorUpdate_pres g cm n st2
      rw [← hco] at hcx hcy hctx
      refine ⟨?_, ?_, ?_⟩
      · rw [hx, hcx, hsx]
        simp
      · rw [hy, hcy, hsy]
        simp
      · rw [htl, hctx, hstx]
        simp only [List.length_append, List.length_cons, List.length_nil, List.length_map]
        omega

theorem nodeLoop_str_lens {g : Graph} {s c : String} {nt : List String} :
    ∀ {ns : List NodeId} {st st' : NLState},
      nodeLoop g (.str s) (.str c) nt st ns = .ok st' →
      st'.sizes.length = st.sizes.length + ns.length ∧
        st'.colors.length = st.colors.length + ns.length := by
  intro ns
  induction ns with
  | nil =>
    intro st st' h
    rw [nodeLoop] at h
    simp only [Except.ok.injEq] at h
    subst h
    simp
  | cons n ns ih =>
    intro st st' h
    rw [nodeLoop] at h
    cases h1 : nodeStep g (.str s) (.str c) nt st n with
    | error err => rw [h1] at h; simp at h
    | ok st1 =>
      rw [h1] at h
      obtain ⟨hsz, hcl⟩ := ih h
      obtain ⟨text, st2, hpt, hbt, hsu, hco⟩ := nodeStep_ok_inv h1
      have hlen2 := sizeUpdate_str_ok_len hsu
      obtain ⟨-, -, -, hcol2⟩ := sizeUpdate_ok_pres hsu
      have hclen : st1.colors.length = st2.colors.length + 1 := by
        rw [hco]
        exact colorUpdate_str_len
      obtain ⟨-, -, -, hsz1⟩ := @colorUpdate_pres g (.str c) n st2
      rw [← hco] at hsz1
      constructor
      · rw [hsz, hsz1, hlen2]
        simp only [List.length_cons]
        omega
      · rw [hcl, hclen, hcol2]
        simp only [List.length_cons]
        omega

theorem nodeLoop_sizes_degree {g : Graph} {cm : SCMethod} {nt : List String} :
    ∀ {ns : List NodeId} {st st' : NLState},
      nodeLoop g (.str "degree") cm nt st ns = .ok st' →
      st'.sizes = st.sizes ++ ns.map (fun n => PyVal.int (g.degree n + 12)) := by
  intro ns
  induction ns with
  | nil =>
    intro st st' h
    rw [nodeLoop] at h
    simp only [Except.ok.injEq] at h
    subst h
    simp
  | cons n ns ih =>
    intro st st' h
    rw [nodeLoop] at h
    cases h1 : nodeStep g (.str "degree") cm nt st n with
    | error err => rw [h1] at h; simp at h
    | ok st1 =>
      rw [h1] at h
      have hrest := ih h
      obtain ⟨text, st2, hpt, hbt, hsu, hco⟩ := nodeStep_ok_inv h1
      rw [sizeUpdate_degree] at hsu
      simp only [Except.ok.injEq] at hsu
      obtain ⟨-, -, -, hsz1⟩ := @colorUpdate_pres g cm n st2
      rw [← hco] at hsz1
      rw [hrest, hsz1, ← hsu]
      simp

theorem nodeLoop_sizes_static {g : Graph} {cm : SCMethod} {nt : List String} :
    ∀ {ns : List NodeId} {st st' : NLState},
      nodeLoop g (.str "static") cm nt st ns = .ok st' →
      st'.sizes = st.sizes ++ ns.map (fun _ => PyVal.int 12) := by
  intro ns
  induction ns with
  | nil =>
    intro st st' h
    rw [nodeLoop] at h
    simp only [Except.ok.injEq] at h
    subst h
    simp
  | cons n ns ih =>
    intro st st' h
    rw [nodeLoop] at h
    cases h1 : nodeStep g (.str "static") cm nt st n with
    | error err => rw [h1] at h; simp at h
    | ok st1 =>
      rw [h1] at h
      have hrest := ih h
      obtain ⟨text, st2, hpt, hbt, hsu, hco⟩ := nodeStep_ok_inv h1
      rw [sizeUpdate_static] at hsu
      simp only [Except.ok.injEq] at hsu
      obtain ⟨-, -, -, hsz1⟩ := @colorUpdate_pres g cm n st2
      rw [← hco] at hsz1
      rw [hrest, hsz1, ← hsu]
      simp

theorem nodeLoop_colors_attr {g : Graph} {sm : SCMethod} {nt : List String} {c : String}
    (hc : c ≠ "degree") :
    ∀ {ns : List NodeId} {st st' : NLState},
      nodeLoop g sm (.str c) nt st ns = .ok st' →
      st'.colors = st.colors ++ ns.map (colorVal g c) := by
  intro ns
  induction ns with
  | nil =>
    intro st st' h
    rw [nodeLoop] at h
    simp only [Except.ok.injEq] at h
    subst h
    simp
  | cons n ns ih =>
    intro st st' h
    rw [nodeLoop] at h
    cases h1 : nodeStep g sm (.str c) nt st n with
    | error err => rw [h1] at h; simp at h
    | ok st1 =>
      rw [h1] at h
      have hrest := ih h
      obtain ⟨text, st2, hpt, hbt, hsu, hco⟩ := nodeStep_ok_inv h1
      obtain ⟨-, -, -, hcol2⟩ := sizeUpdate_ok_pres hsu
      have hst1 : st1.colors = st2.colors ++ [colorVal g c n] := by
        rw [hco, colorUpdate_other hc]
      rw [hrest, hst1, hcol2]
      simp

theorem nodeLoop_text_err {g : Graph} {cm : SCMethod} {nt : List String} :
    ∀ {ns : List NodeId} {st : NLState} {n0 : NodeId} {p0 : String},
      (∀ n ∈ ns, hasPtPos g n = true) →
      firstTextMiss g nt ns = some (n0, p0) →
      nodeLoop g (.str "degree") cm nt st ns = .error (.keyError n0 p0) := by
  intro ns
  induction ns with
  | nil =>
    intro st n0 p0 _ h
    simp [firstTextMiss] at h
  | cons n ns ih =>
    intro st n0 p0 hpos h
    rw [firstTextMiss] at h
    cases hfm : firstMissProp g n nt with
    | some p =>
      rw [hfm] at h
      simp only [Option.some.injEq, Prod.mk.injEq] at h
      obtain ⟨h1, h2⟩ := h
      subst h1
      subst h2
      rw [nodeLoop, nodeStep_text_err (hpos n (List.mem_cons_self n ns)) hfm]
    | none =>
      rw [hfm] at h
      obtain ⟨st2, hstep⟩ := nodeStep_degree_ok (hpos n (List.mem_cons_self n ns)) hfm
      rw [nodeLoop, hstep]
      exact ih (fun m hm => hpos m (List.mem_cons_of_mem n hm)) h

theorem nodeLoop_size_err {g : Graph} {cm : SCMethod} {s : String}
    (h1 : s ≠ "degree") (h2 : s ≠ "static") :
    ∀ {ns : List NodeId} {st : NLState} {n0 : NodeId},
      (∀ n ∈ ns, hasPtPos g n = true) →
      firstMissingNode g s ns = some n0 →
      nodeLoop g (.str s) cm [] st ns = .error (.keyError n0 s) := by
  intro ns
  induction ns with
  | nil =>
    intro st n0 _ h
    simp [firstMissingNode] at h
  | cons n ns ih =>
    intro st n0 hpos h
    rw [firstMissingNode] at h
    by_cases hhas : alHas (g.attrs n) s = true
    · rw [if_pos hhas] at h
      cases hv : alGet (g.attrs n) s with
      | none => rw [alHas, hv] at hhas; simp at hhas
      | some v =>
        obtain ⟨st2, hstep⟩ :=
          nodeStep_attr_ok (hpos n (List.mem_cons_self n ns))
            (rfl : firstMissProp g n [] = none) h1 h2 hv
        rw [nodeLoop, hstep]
        exact ih (fun m hm => hpos m (List.mem_cons_of_mem n hm)) h
    · rw [if_neg hhas] at h
      simp only [Option.some.injEq] at h
      subst h
      rw [nodeLoop, nodeStep_attr_err (hpos n (List.mem_cons_self n ns))
        (rfl : firstMissProp g n [] = none) h1 h2
        (alHas_false_get_none (by
          cases hmm : alHas (g.attrs n) s with
          | false => rfl
          | true => exact absurd hmm hhas))]

theorem nodeLoop_degree_ok {g : Graph} {cm : SCMethod} :
    ∀ {ns : List NodeId} {st : NLState}, (∀ n ∈ ns, hasPtPos g n = true) →
      ∃ st', nodeLoop g (.str "degree") cm [] st ns = .ok st' := by
  intro ns
  induction ns with
  | nil => intro st _; exact ⟨st, rfl⟩
  | cons n ns ih =>
    intro st hpos
    obtain ⟨st1, hstep⟩ := nodeStep_degree_ok (hpos n (List.mem_cons_self n ns)) (rfl : firstMissProp g n [] = none)
    obtain ⟨st', hrest⟩ := @ih st1 (fun m hm => hpos m (List.mem_cons_of_mem n hm))
    refine ⟨st', ?_⟩
    rw [nodeLoop, hstep]
    exact hrest

theorem edgeLoop_ok_of {g : Graph} {se : Bool} :
    ∀ {es : List Edge} {st : ELState},
      (∀ e ∈ es, hasPtPos g e.src = true ∧ hasPtPos g e.dst = true) →
      ∃ st', edgeLoop g se st es = .ok st' := by
  intro es
  induction es with
  | nil => intro st _; exact ⟨st, rfl⟩
  | cons e es ih =>
    intro st hpos
    obtain ⟨hs, hd⟩ := hpos e (List.mem_cons_self e es)
    obtain ⟨st', hrest⟩ := @ih (edgeStepP g se st e)
      (fun f hf => hpos f (List.mem_cons_of_mem e hf))
    refine ⟨st', ?_⟩
    rw [edgeLoop, edgeStep_eq_ok hs hd]
    exact hrest

theorem gst_ok_inv {g : Graph} {sm cm : SCMethod} {cs cbt : String} {nt : List String}
    {se : Bool} {r : NodeTrace × EdgeTrace × MiddleTrace}
    (h : generateScatterTrace g sm cm cs cbt nt se = .ok r) :
    ∃ est nst,
      edgeLoop g se { ex := [], ey := [], mx := [], my := [], props := [] } g.edges = .ok est ∧
      nodeLoop g sm cm nt
        { nx := [], ny := [], ntext := [], sizes := [], colors := [] } g.nodes = .ok nst ∧
      r = ({ x := nst.nx, y := nst.ny, text := nst.ntext, size := nst.sizes,
             color := nst.colors, colorscale := cs, colorbarTitle := cbt },
           { x := est.ex, y := est.ey },
           { x := est.mx, y := est.my,
             text := if se then edgeTextList est.props else [] }) := by
  unfold generateScatterTrace at h
  cases he : edgeLoop g se { ex := [], ey := [], mx := [], my := [], props := [] } g.edges with
  | error err => rw [he] at h; simp at h
  | ok est =>
    rw [he] at h
    cases hn : nodeLoop g sm cm nt
        { nx := [], ny := [], ntext := [], sizes := [], colors := [] } g.nodes with
    | error err => rw [hn] at h; simp at h
    | ok nst =>
      rw [hn] at h
      simp only [Except.ok.injEq] at h
      exact ⟨est, nst, rfl, rfl, h.symm⟩

theorem gst_degree_ok {g : Graph} {cm : SCMethod} {cs cbt : String} {se : Bool}
    (hA : allPos g = true) (hE : edgesWF g = true) :
    exceptOk (generateScatterTrace g (.str "degree") cm cs cbt [] se) = true := by
  obtain ⟨est, he⟩ := @edgeLoop_ok_of g se g.edges
    { ex := [], ey := [], mx := [], my := [], props := [] }
    (fun e hm =>
      ⟨hasPtPos_of_allPos hA (endpoints_of_edgesWF hE hm).1,
       hasPtPos_of_allPos hA (endpoints_of_edgesWF hE hm).2⟩)
  obtain ⟨nst, hn⟩ := @nodeLoop_degree_ok g cm g.nodes
    { nx := [], ny := [], ntext := [], sizes := [], colors := [] }
    (fun n hn => hasPtPos_of_allPos hA hn)
  unfold generateScatterTrace
  rw [he, hn]
  rfl

theorem gst_err_of_nodeLoop {g : Graph} {sm cm : SCMethod} {cs cbt : String}
    {nt : List String} {se : Bool} {err : PyErr} {est : ELState}
    (he : edgeLoop g se { ex := [], ey := [], mx := [], my := [], props := [] } g.edges = .ok est)
    (hn : nodeLoop g sm cm nt
      { nx := [], ny := [], ntext := [], sizes := [], colors := [] } g.nodes = .error err) :
    generateScatterTrace g sm cm cs cbt nt se = .error err := by
  unfold generateScatterTrace
  rw [he, hn]

theorem arrowAnnos_ok_of {g : Graph} :
    ∀ {es : List Edge}, (∀ e ∈ es, hasPtPos g e.src = true ∧ hasPtPos g e.dst = true) →
      arrowAnnos g es = .ok (es.map (fun e =>
        Anno.arrow (posx g e.src) (posy g e.src) (posx g e.dst) (posy g e.dst))) := by
  intro es
  induction es with
  | nil => intro _; rfl
  | cons e es ih =>
    intro hpos
    obtain ⟨hs, hd⟩ := hpos e (List.mem_cons_self e es)
    rw [arrowAnnos, getPos_eq_ok hs, getPos_eq_ok hd,
      ih (fun f hf => hpos f (List.mem_cons_of_mem e hf))]
    rfl

theorem arrowAnnos_ok_inv {g : Graph} :
    ∀ {es : List Edge} {l : List Anno }, arrowAnnos g es = .ok l →
      l = es.map (fun e =>
        Anno.arrow (posx g e.src) (posy g e.src) (posx g e.dst) (posy g e.dst)) := by
  intro es
  induction es with
  | nil =>
    intro l h
    rw [arrowAnnos] at h
    simp only [Except.ok.injEq] at h
    rw [← h]
    rfl
  | cons e es ih =>
    intro l h
    rw [arrowAnnos] at h
    cases hs : getPos g e.src with
    | error err => rw [hs] at h; simp at h
    | ok xy =>
      obtain ⟨ax, ay⟩ := xy
      rw [hs] at h
      cases hd : getPos g e.dst with
      | error err => rw [hd] at h; simp at h
      | ok xy2 =>
        obtain ⟨x, y⟩ := xy2
        rw [hd] at h
        cases hr : arrowAnnos g es with
        | error err => rw [hr] at h; simp at h
        | ok rest =>
          rw [hr] at h
          simp only [Except.ok.injEq] at h
          obtain ⟨-, hxs, hys⟩ := getPos_ok_inv hs
          obtain ⟨-, hxd, hyd⟩ := getPos_ok_inv hd
          rw [← h, ih hr, List.map_cons, hxs, hys, hxd, hyd]

theorem generateFigure_ok_inv {g : Graph} {nt : NodeTrace} {et : EdgeTrace}
    {mt : MiddleTrace} {title : String} {tfs : Nat} {sl : Bool} {ann : String}
    {fig : Figure} (h : generateFigure g nt et mt title tfs sl ann = .ok fig) :
    fig.nodeTrace = nt ∧ fig.edgeTrace = et ∧ fig.middleTrace = mt ∧
      fig.title = title ∧ fig.titlefontSize = tfs ∧ fig.showlegend = sl ∧
      fig.annos = Anno.caption ann ::
        (if g.directed then
          g.edges.map (fun e =>
            Anno.arrow (posx g e.src) (posy g e.src) (posx g e.dst) (posy g e.dst))
        else []) := by
  unfold generateFigure at h
  cases hdir : g.directed with
  | false =>
    rw [hdir] at h
    simp only [Bool.false_eq_true, if_false, Except.ok.injEq] at h
    subst h
    simp
  | true =>
    rw [hdir] at h
    replace h :
        (match arrowAnnos g g.edges with
          | .error err => (.error err : Except PyErr Figure)
          | .ok arrows =>
            .ok { nodeTrace := nt, edgeTrace := et, middleTrace := mt,
                  title := title, titlefontSize := tfs, showlegend := sl,
                  annos := Anno.caption ann :: arrows }) = .ok fig := h
    cases ha : arrowAnnos g g.edges with
    | error err => rw [ha] at h; simp at h
    | ok arrows =>
      rw [ha] at h
      simp only [Except.ok.injEq] at h
      subst h
      refine ⟨rfl, rfl, rfl, rfl, rfl, rfl, ?_⟩
      rw [if_pos rfl, arrowAnnos_ok_inv ha]

theorem generateFigure_ok_of {g : Graph} {nt : NodeTrace} {et : EdgeTrace}
    {mt : MiddleTrace} {title : String} {tfs : Nat} {sl : Bool} {ann : String}
    (harr : g.directed = true →
      ∀ e ∈ g.edges, hasPtPos g e.src = true ∧ hasPtPos g e.dst = true) :
    ∃ fig, generateFigure g nt et mt title tfs sl ann = .ok fig := by
  unfold generateFigure
  cases hdir : g.directed with
  | false =>
    simp only [Bool.false_eq_true, if_false]
    exact ⟨_, rfl⟩
  | true =>
    simp only [if_pos rfl]
    rw [arrowAnnos_ok_of (harr hdir)]
    exact ⟨_, rfl⟩

theorem applyLayout_structure {env : LayoutEnv} {seed : Nat} {g g' : Graph} {name : String}
    (h : applyLayout env seed g name = .ok g') :
    g'.nodes = g.nodes ∧ g'.edges = g.edges ∧ g'.directed = g.directed ∧
      allPos g' = true := by
  unfold applyLayout at h
  cases hf : layout_functions env seed name with
  | none => rw [hf] at h; simp at h
  | some f =>
    rw [hf] at h
    simp only [Except.ok.injEq] at h
    subst h
    refine ⟨rfl, rfl, rfl, ?_⟩
    unfold allPos
    rw [List.all_eq_true]
    intro n hn
    have hn2 : n ∈ g.nodes := hn
    unfold hasPtPos setPosAttrs
    simp only [if_pos hn2]
    rw [alGet_set_self]

theorem layoutStep_none_ok {env : LayoutEnv} {seed : Nat} {g : Graph}
    (h : getNodeAttrs g "pos" ≠ []) : layoutStep env seed g none = .ok g := by
  unfold layoutStep
  rw [if_neg (by simp [optStrTruthy])]
  rw [if_neg h]

theorem layoutStep_ok_structure {env : LayoutEnv} {seed : Nat} {g g' : Graph}
    {lo : Option String} (h : layoutStep env seed g lo = .ok g') :
    g'.nodes = g.nodes ∧ g'.edges = g.edges ∧ g'.directed = g.directed := by
  unfold layoutStep at h
  by_cases ht : optStrTruthy lo = true
  · rw [if_pos ht] at h
    obtain ⟨h1, h2, h3, -⟩ := applyLayout_structure h
    exact ⟨h1, h2, h3⟩
  · rw [if_neg ht] at h
    by_cases hg : getNodeAttrs g "pos" = []
    · rw [if_pos hg] at h
      obtain ⟨h1, h2, h3, -⟩ := applyLayout_structure h
      exact ⟨h1, h2, h3⟩
    · rw [if_neg hg] at h
      simp only [Except.ok.injEq] at h
      subst h
      exact ⟨rfl, rfl, rfl⟩

theorem layout_functions_det {env : LayoutEnv} {seed1 seed2 : Nat} {name : String}
    (h : name ∈ ["circular", "kamada", "planar", "spring", "spectral", "spiral"]) :
    layout_functions env seed1 name = layout_functions env seed2 name := by
  have hnr : name ≠ "random" := by
    simp only [List.mem_cons, List.not_mem_nil, or_false] at h
    rcases h with rfl | rfl | rfl | rfl | rfl | rfl <;> decide
  unfold layout_functions
  rw [if_neg hnr, if_neg hnr]

theorem getNodeAttrs_ne_nil {g : Graph} {n : NodeId} (hn : n ∈ g.nodes)
    (hp : hasPtPos g n = true) : getNodeAttrs g "pos" ≠ [] := by
  unfold getNodeAttrs
  intro hcon
  have hfn := List.filterMap_eq_nil_iff.mp hcon n hn
  unfold hasPtPos at hp
  cases hv : alGet (g.attrs n) "pos" with
  | none => rw [hv] at hp; simp at hp
  | some v => rw [hv] at hfn; simp at hfn

theorem plot_ok_inv {env : LayoutEnv} {seed : Nat} {g : Graph} {title : String}
    {lo : Option String} {sm cm : SCMethod} {nt : List String} {se : Bool}
    {tfs : Nat} {sl : Bool} {ann cs cbt : String} {fig : Figure}
    (h : plot env seed g title lo sm cm nt se tfs sl ann cs cbt = .ok fig) :
    ∃ g2 ntr etr mtr, layoutStep env seed g lo = .ok g2 ∧
      generateScatterTrace g2 sm cm cs cbt nt se = .ok (ntr, etr, mtr) ∧
      generateFigure g2 ntr etr mtr title tfs sl ann = .ok fig := by
  unfold plot at h
  cases hl : layoutStep env seed g lo with
  | error err => rw [hl] at h; simp at h
  | ok g2 =>
    rw [hl] at h
    replace h :
        (match generateScatterTrace g2 sm cm cs cbt nt se with
          | .error err => (.error err : Except PyErr Figure)
          | .ok (ntr, etr, mtr) => generateFigure g2 ntr etr mtr title tfs sl ann) =
          .ok fig := h
    cases hg : generateScatterTrace g2 sm cm cs cbt nt se with
    | error err => rw [hg] at h; simp at h
    | ok r =>
      obtain ⟨ntr, etr, mtr⟩ := r
      rw [hg] at h
      exact ⟨g2, ntr, etr, mtr, rfl, hg, h⟩

theorem gst_true_middle {g : Graph} {sm cm : SCMethod} {cs cbt : String}
    {nt : List String} {r : NodeTrace × EdgeTrace × MiddleTrace}
    (h : generateScatterTrace g sm cm cs cbt nt true = .ok r) :
    r.2.2 = { x := (distinctPairs g.edges).map (midXF g),
              y := (distinctPairs g.edges).map (midYF g),
              text := (distinctPairs g.edges).map (pairText g.edges) } := by
  obtain ⟨est, nst, he, hn, hr⟩ := gst_ok_inv h
  subst hr
  have hkeys : est.props.map Prod.fst = distinctPairs g.edges := edgeLoop_true_keys he
  have hmx : est.mx = (est.props.map Prod.fst).map (midXF g) := edgeLoop_true_mx he rfl
  have hmy : est.my = (est.props.map Prod.fst).map (midYF g) := edgeLoop_true_my he rfl
  have hprops : est.props = (distinctPairs g.edges).map (fun p => (p, aggForPair g.edges p)) := by
    apply alEq_of_keys_get hkeys (nodup_distinctPairsFrom List.nodup_nil)
    intro p hp
    have hget := edgeLoop_true_get he p
    replace hget : alGet est.props p =
        (if (g.edges.any fun e => decide (pairOf e = p)) then some (aggInto [] g.edges p)
         else none) := hget
    have hany : (g.edges.any fun e => decide (pairOf e = p)) = true := by
      rcases mem_distinctPairsFrom.mp hp with hfalse | ⟨e, he2, hpe⟩
      · simp at hfalse
      · rw [List.any_eq_true]
        exact ⟨e, he2, by simp [hpe]⟩
    rw [hget, if_pos hany]
    rfl
  show ({ x := est.mx, y := est.my, text := if true then edgeTextList est.props else [] }
      : MiddleTrace) = _
  rw [if_pos rfl]
  rw [show est.mx = (distinctPairs g.edges).map (midXF g) from hkeys ▸ hmx,
    show est.my = (distinctPairs g.edges).map (midYF g) from hkeys ▸ hmy,
    hprops]
  unfold edgeTextList pairText
  simp [List.map_map, Function.comp]

theorem firstMissingNode_mem {g : Graph} {s : String} :
    ∀ {ns : List NodeId} {n0 : NodeId}, firstMissingNode g s ns = some n0 → n0 ∈ ns := by
  intro ns
  induction ns with
  | nil => intro n0 h; simp [firstMissingNode] at h
  | cons n ns ih =>
    intro n0 h
    rw [firstMissingNode] at h
    by_cases hm : alHas (g.attrs n) s = true
    · rw [if_pos hm] at h
      exact List.mem_cons_of_mem n (ih h)
    · rw [if_neg hm] at h
      simp only [Option.some.injEq] at h
      subst h
      exact List.mem_cons_self n ns

theorem firstTextMiss_mem {g : Graph} {nt : List String} :
    ∀ {ns : List NodeId} {n0 : NodeId} {p0 : String},
      firstTextMiss g nt ns = some (n0, p0) → n0 ∈ ns := by
  intro ns
  induction ns with
  | nil => intro n0 p0 h; simp [firstTextMiss] at h
  | cons n ns ih =>
    intro n0 p0 h
    rw [firstTextMiss] at h
    cases hfm : firstMissProp g n nt with
    | some p =>
      rw [hfm] at h
      simp only [Option.some.injEq, Prod.mk.injEq] at h
      rw [← h.1]
      exact List.mem_cons_self n ns
    | none =>
      rw [hfm] at h
      exact List.mem_cons_of_mem n (ih h)

theorem plot_gst_err {env : LayoutEnv} {seed : Nat} {g g2 : Graph} {title : String}
    {lo : Option String} {sm cm : SCMethod} {nt : List String} {se : Bool}
    {tfs : Nat} {sl : Bool} {ann cs cbt : String} {err : PyErr}
    (hl : layoutStep env seed g lo = .ok g2)
    (hg : generateScatterTrace g2 sm cm cs cbt nt se = .error err) :
    plot env seed g title lo sm cm nt se tfs sl ann cs cbt = .error err := by
  unfold plot
  rw [hl]
  show (match generateScatterTrace g2 sm cm cs cbt nt se with
    | .error err => (.error err : Except PyErr Figure)
    | .ok (a, b, c) => generateFigure g2 a b c title tfs sl ann) = .error err
  rw [hg]

theorem plot_degree_ok {env : LayoutEnv} {seed : Nat} {g : Graph} {title : String}
    {c : String} {se : Bool} {tfs : Nat} {sl : Bool} {ann cs cbt : String}
    (hA : allPos g = true) (hE : edgesWF g = true) (hne : getNodeAttrs g "pos" ≠ []) :
    exceptOk (plot env seed g title none (.str "degree") (.str c) [] se tfs sl ann
      cs cbt) = true := by
  have hl := @layoutStep_none_ok env seed g hne
  unfold plot
  rw [hl]
  show exceptOk (match generateScatterTrace g (.str "degree") (.str c) cs cbt [] se with
    | .error err => (.error err : Except PyErr Figure)
    | .ok (a, b, c2) => generateFigure g a b c2 title tfs sl ann) = true
  cases hg : generateScatterTrace g (.str "degree") (.str c) cs cbt [] se with
  | error err =>
    have hok := @gst_degree_ok g (.str c) cs cbt se hA hE
    rw [hg] at hok
    simp [exceptOk] at hok
  | ok r =>
    obtain ⟨a, b, c2⟩ := r
    show exceptOk (generateFigure g a b c2 title tfs sl ann) = true
    obtain ⟨fig, hf⟩ := generateFigure_ok_of (fun _ e he =>
      ⟨hasPtPos_of_allPos hA (endpoints_of_edgesWF hE he).1,
       hasPtPos_of_allPos hA (endpoints_of_edgesWF hE he).2⟩)
    rw [hf]
    rfl

theorem filter_isArrow_arrows {g : Graph} {es : List Edge} :
    ((es.map (fun e =>
        Anno.arrow (posx g e.src) (posy g e.src) (posx g e.dst) (posy g e.dst))).filter
      isArrow) =
      es.map (fun e =>
        Anno.arrow (posx g e.src) (posy g e.src) (posx g e.dst) (posy g e.dst)) := by
  rw [List.filter_eq_self]
  intro a ha
  obtain ⟨e, -, rfl⟩ := List.mem_map.mp ha
  rfl

theorem filter_isCaption_arrows {g : Graph} {es : List Edge} :
    ((es.map (fun e =>
        Anno.arrow (posx g e.src) (posy g e.src) (posx g e.dst) (posy g e.dst))).filter
      isCaption) = [] := by
  rw [List.filter_eq_nil_iff]
  intro a ha
  obtain ⟨e, -, rfl⟩ := List.mem_map.mp ha
  simp [isCaption]

/-- The length invariants claimed of the assembled figure: one node-trace
entry per node in each parallel sequence, three edge-trace coordinates per
edge, and (when edge hover text is on) one edge-hover entry per distinct
endpoint pair that has at least one edge. -/
def traceLensOk (g : Graph) (se : Bool) (fig : Figure) : Prop :=
  fig.nodeTrace.x.length = g.nodes.length ∧
  fig.nodeTrace.y.length = g.nodes.length ∧
  fig.nodeTrace.text.length = g.nodes.length ∧
  fig.nodeTrace.size.length = g.nodes.length ∧
  fig.nodeTrace.color.length = g.nodes.length ∧
  fig.edgeTrace.x.length = 3 * g.edges.length ∧
  fig.edgeTrace.y.length = 3 * g.edges.length ∧
  (se = true →
    fig.middleTrace.x.length = (distinctPairs g.edges).length ∧
    fig.middleTrace.y.length = (distinctPairs g.edges).length ∧
    fig.middleTrace.text.length = (distinctPairs g.edges).length)

/-- C1 (amended): for every graph with N nodes and E edges, when `plot`
succeeds with string sizing and coloring methods, the node trace's
parallel sequences (x, y, text, marker sizes, marker colors) each have
length N and the edge trace's x and y sequences each have length 3E;
when edge hover text is enabled, the edge-hover trace's sequences each
have length equal to the number of distinct ordered endpoint pairs
`(edge[0], edge[1])` occurring in the edge list -- for undirected graphs
this equals the number of distinct unordered node pairs with at least
one edge, but on a directed graph mutually opposite edges `a -> b` and
`b -> a` count as two pairs and yield two hover entries, not one per
unordered pair. -/
theorem c1_trace_lengths (env : LayoutEnv) (seed : Nat) (g : Graph) (title : String)
    (lo : Option String) (s c : String) (nt : List String) (se : Bool) (tfs : Nat)
    (sl : Bool) (ann cs cbt : String)
    (h : exceptOk (plot env seed g title lo (.str s) (.str c) nt se tfs sl ann cs cbt)
      = true) :
    traceLensOk g se
      (figOr (plot env seed g title lo (.str s) (.str c) nt se tfs sl ann cs cbt)) := by
  cases hp : plot env seed g title lo (.str s) (.str c) nt se tfs sl ann cs cbt with
  | error err => rw [hp] at h; simp [exceptOk] at h
  | ok fig =>
    simp only [figOr]
    obtain ⟨g2, ntr, etr, mtr, hl, hg, hf⟩ := plot_ok_inv hp
    obtain ⟨hnodes, hedges, -⟩ := layoutStep_ok_structure hl
    obtain ⟨hfig1, hfig2, hfig3, -, -, -, -⟩ := generateFigure_ok_inv hf
    obtain ⟨est, nst, he, hn, hr⟩ := gst_ok_inv hg
    simp only [Prod.mk.injEq] at hr
    obtain ⟨hntr, hetr, hmtr⟩ := hr
    obtain ⟨hnx, hny, hntext⟩ := nodeLoop_ok_acc hn
    obtain ⟨hsz, hcl⟩ := nodeLoop_str_lens hn
    obtain ⟨hex, hey⟩ := edgeLoop_ok_lengths he
    refine ⟨?_, ?_, ?_, ?_, ?_, ?_, ?_, ?_⟩
    · rw [hfig1, hntr]
      show nst.nx.length = g.nodes.length
      rw [hnx, hnodes]
      simp
    · rw [hfig1, hntr]
      show nst.ny.length = g.nodes.length
      rw [hny, hnodes]
      simp
    · rw [hfig1, hntr]
      show nst.ntext.length = g.nodes.length
      rw [hntext, hnodes]
      simp
    · rw [hfig1, hntr]
      show nst.sizes.length = g.nodes.length
      rw [hsz, hnodes]
      simp
    · rw [hfig1, hntr]
      show nst.colors.length = g.nodes.length
      rw [hcl, hnodes]
      simp
    · rw [hfig2, hetr]
      show est.ex.length = 3 * g.edges.length
      rw [hex, hedges]
      simp
    · rw [hfig2, hetr]
      show est.ey.length = 3 * g.edges.length
      rw [hey, hedges]
      simp
    · intro hse
      subst hse
      have hmid : mtr = { x := (distinctPairs g2.edges).map (midXF g2),
                          y := (distinctPairs g2.edges).map (midYF g2),
                          text := (distinctPairs g2.edges).map (pairText g2.edges) } :=
        gst_true_middle hg
      refine ⟨?_, ?_, ?_⟩
      · rw [hfig3, hmid]
        show ((distinctPairs g2.edges).map (midXF g2)).length = (distinctPairs g.edges).length
        rw [hedges]
        simp
      · rw [hfig3, hmid]
        show ((distinctPairs g2.edges).map (midYF g2)).length = (distinctPairs g.edges).length
        rw [hedges]
        simp
      · rw [hfig3, hmid]
        show ((distinctPairs g2.edges).map (pairText g2.edges)).length =
          (distinctPairs g.edges).length
        rw [hedges]
        simp

theorem c1_trace_lengths_cex :
    exceptOk (plot envTriv 0 gAnti "Graph" none (.str "degree") (.str "degree") [] true
      16 false "" "YlGnBu" "") = true ∧
    (figOr (plot envTriv 0 gAnti "Graph" none (.str "degree") (.str "degree") [] true
      16 false "" "YlGnBu" "")).middleTrace.x.length = 2 ∧
    (figOr (plot envTriv 0 gAnti "Graph" none (.str "degree") (.str "degree") [] true
      16 false "" "YlGnBu" "")).middleTrace.text.length = 2 ∧
    (distinctUnorderedPairs gAnti.edges).length = 1 := by
  decide

theorem c1_trace_lengths_witness :
    exceptOk (plot envTriv 0 gPath "Graph" none (.str "degree") (.str "degree") [] true
      16 false "" "YlGnBu" "") = true ∧
    traceLensOk gPath true
      (figOr (plot envTriv 0 gPath "Graph" none (.str "degree") (.str "degree") [] true
        16 false "" "YlGnBu" "")) :=
  ⟨by decide,
   c1_trace_lengths envTriv 0 gPath "Graph" none "degree" "degree" [] true 16 false ""
     "YlGnBu" "" (by decide)⟩

/-- C2 (amended): when edge hover text is requested and the trace builder
succeeds, exactly one invisible hover marker is created for each distinct
ordered endpoint pair `(edge[0], edge[1])` as edges are enumerated --
which for undirected NetworkX graphs coincides with the distinct
unordered node pairs, since parallel edges are always enumerated with the
same orientation, but for directed graphs a mutually opposite edge pair
`(a, b)`, `(b, a)` yields two markers.  Each marker sits at the midpoint
of its pair's node positions (hence of the pair's first-seen edge
position), and its hover text aggregates every attribute key/value across
all parallel edges with that same ordered pair, e.g. two parallel edges
with weight 1 and weight 2 yield one marker whose text lists
`weight: [1, 2]`. -/
theorem c2_edge_hover_amended (g : Graph) (sm cm : SCMethod) (cs cbt : String)
    (nt : List String)
    (h : exceptOk (generateScatterTrace g sm cm cs cbt nt true) = true) :
    (gstOr (generateScatterTrace g sm cm cs cbt nt true)).2.2 =
      { x := (distinctPairs g.edges).map (midXF g),
        y := (distinctPairs g.edges).map (midYF g),
        text := (distinctPairs g.edges).map (pairText g.edges) } := by
  cases hp : generateScatterTrace g sm cm cs cbt nt true with
  | error err => rw [hp] at h; simp [exceptOk] at h
  | ok r =>
    simp only [gstOr]
    exact gst_true_middle hp

theorem c2_edge_hover_cex :
    exceptOk (generateScatterTrace gAnti (.str "degree") (.str "degree") "YlGnBu" "" []
      true) = true ∧
    (gstOr (generateScatterTrace gAnti (.str "degree") (.str "degree") "YlGnBu" "" []
      true)).2.2.x.length = 2 ∧
    (distinctUnorderedPairs gAnti.edges).length = 1 := by
  decide

theorem c2_edge_hover_amended_witness :
    exceptOk (generateScatterTrace gPar (.str "degree") (.str "degree") "YlGnBu" "" []
      true) = true ∧
    (gstOr (generateScatterTrace gPar (.str "degree") (.str "degree") "YlGnBu" "" []
      true)).2.2 =
      { x := (distinctPairs gPar.edges).map (midXF gPar),
        y := (distinctPairs gPar.edges).map (midYF gPar),
        text := (distinctPairs gPar.edges).map (pairText gPar.edges) } ∧
    (distinctPairs gPar.edges).map (pairText gPar.edges) = ["weight: [1, 2]"] ∧
    (distinctPairs gPar.edges).length = 1 :=
  ⟨by decide,
   c2_edge_hover_amended gPar (.str "degree") (.str "degree") "YlGnBu" "" [] (by decide),
   by decide, by decide⟩

theorem firstMissingNode_none {g : Graph} {s : String} :
    ∀ {ns : List NodeId} {n0 : NodeId}, firstMissingNode g s ns = some n0 →
      alGet (g.attrs n0) s = none := by
  intro ns
  induction ns with
  | nil => intro n0 h; simp [firstMissingNode] at h
  | cons n ns ih =>
    intro n0 h
    rw [firstMissingNode] at h
    by_cases hm : alHas (g.attrs n) s = true
    · rw [if_pos hm] at h
      exact ih h
    · rw [if_neg hm] at h
      simp only [Option.some.injEq] at h
      subst h
      exact alHas_false_get_none (by
        cases hmm : alHas (g.attrs n) s with
        | false => rfl
        | true => exact absurd hmm hm)

/-- C3 (amended): after the layout-application step of `plot` succeeds,
every node carries a position whenever a (truthy) layout name was given,
or when no node had a position beforehand (so the default random layout
ran).  When no layout name is given and at least one node already has a
position, the step returns the graph untouched -- so nodes that lacked a
position keep lacking one. -/
theorem c3_layout_positions_amended (env : LayoutEnv) (seed : Nat) (g : Graph)
    (lo : Option String)
    (h : exceptOk (layoutStep env seed g lo) = true) :
    ((optStrTruthy lo = true ∨ getNodeAttrs g "pos" = []) →
      allPos (graphOr (layoutStep env seed g lo)) = true) ∧
    (optStrTruthy lo = false → getNodeAttrs g "pos" ≠ [] →
      layoutStep env seed g lo = .ok g) := by
  constructor
  · intro hcase
    cases hp : layoutStep env seed g lo with
    | error err => rw [hp] at h; simp [exceptOk] at h
    | ok g2 =>
      simp only [graphOr]
      unfold layoutStep at hp
      by_cases ht : optStrTruthy lo = true
      · rw [if_pos ht] at hp
        exact (applyLayout_structure hp).2.2.2
      · rw [if_neg ht] at hp
        rcases hcase with ht2 | hg0
        · exact absurd ht2 ht
        · rw [if_pos hg0] at hp
          exact (applyLayout_structure hp).2.2.2
  · intro ht hg0
    unfold layoutStep
    rw [if_neg (by simp [ht]), if_neg hg0]

theorem c3_layout_positions_cex :
    exceptOk (layoutStep envTriv 0 gPartial none) = true ∧
    (1 ∈ gPartial.nodes) ∧
    getNodeAttrs gPartial "pos" ≠ [] ∧
    hasPtPos (graphOr (layoutStep envTriv 0 gPartial none)) 1 = false ∧
    allPos (graphOr (layoutStep envTriv 0 gPartial none)) = false := by
  decide

theorem c3_layout_positions_witness :
    exceptOk (layoutStep envTriv 0 gPartial (some "circular")) = true ∧
    allPos (graphOr (layoutStep envTriv 0 gPartial (some "circular"))) = true ∧
    exceptOk (layoutStep envTriv 0 gPath none) = true ∧
    layoutStep envTriv 0 gPath none = Except.ok gPath :=
  ⟨by decide,
   (c3_layout_positions_amended envTriv 0 gPartial (some "circular") (by decide)).1
     (Or.inl (by decide)),
   by decide,
   (c3_layout_positions_amended envTriv 0 gPath none (by decide)).2 (by decide)
     (by decide)⟩

/-- C4 (amended): when `size_method` is a string other than `degree` and
`static` and some node lacks that attribute, `plot` fails with a
missing-key error at the first such node in iteration order.  The
coloring policy, in contrast, never raises for a missing attribute: a
string `color_method` always succeeds, a node lacking the attribute
receiving the string itself as a literal color. -/
theorem c4_missing_attr_amended (env : LayoutEnv) (seed : Nat) (g : Graph)
    (title : String) (s c : String) (cm : SCMethod) (se : Bool) (tfs : Nat)
    (sl : Bool) (ann cs cbt : String) (n0 : NodeId)
    (hA : allPos g = true) (hE : edgesWF g = true)
    (h1 : s ≠ "degree") (h2 : s ≠ "static")
    (hm : firstMissingNode g s g.nodes = some n0) :
    plot env seed g title none (.str s) cm [] se tfs sl ann cs cbt =
        .error (.keyError n0 s) ∧
      alGet (g.attrs n0) s = none ∧ n0 ∈ g.nodes ∧
      exceptOk (plot env seed g title none (.str "degree") (.str c) [] se tfs sl ann
        cs cbt) = true := by
  have hmem := firstMissingNode_mem hm
  have hne := getNodeAttrs_ne_nil hmem (hasPtPos_of_allPos hA hmem)
  refine ⟨?_, firstMissingNode_none hm, hmem, plot_degree_ok hA hE hne⟩
  have hl := @layoutStep_none_ok env seed g hne
  obtain ⟨est, he⟩ := @edgeLoop_ok_of g se g.edges
    { ex := [], ey := [], mx := [], my := [], props := [] }
    (fun e hm2 => ⟨hasPtPos_of_allPos hA (endpoints_of_edgesWF hE hm2).1,
                   hasPtPos_of_allPos hA (endpoints_of_edgesWF hE hm2).2⟩)
  have hnl := @nodeLoop_size_err g cm s h1 h2 g.nodes
    { nx := [], ny := [], ntext := [], sizes := [], colors := [] } n0
    (fun n hn => hasPtPos_of_allPos hA hn) hm
  exact plot_gst_err hl (gst_err_of_nodeLoop he hnl)

theorem c4_missing_attr_cex :
    exceptOk (plot envTriv 0 gMix "Graph" none (.str "static") (.str "grp") [] false 16
      false "" "YlGnBu" "") = true ∧
    alGet (gMix.attrs 1) "grp" = none ∧ (1 ∈ gMix.nodes) ∧
    alGet (gMix.attrs 0) "grp" = some (PyVal.int 5) ∧
    (figOr (plot envTriv 0 gMix "Graph" none (.str "static") (.str "grp") [] false 16
      false "" "YlGnBu" "")).nodeTrace.color = [PyVal.int 5, PyVal.str "grp"] := by
  decide

theorem c4_missing_attr_witness :
    (allPos gMix = true ∧ edgesWF gMix = true ∧
      firstMissingNode gMix "size" gMix.nodes = some 1) ∧
    (plot envTriv 0 gMix "Graph" none (.str "size") (.str "degree") [] false 16 false ""
        "YlGnBu" "" = Except.error (.keyError 1 "size") ∧
      alGet (gMix.attrs 1) "size" = none ∧ (1 ∈ gMix.nodes) ∧
      exceptOk (plot envTriv 0 gMix "Graph" none (.str "degree") (.str "c") [] false 16
        false "" "YlGnBu" "") = true) :=
  ⟨⟨by decide, by decide, by decide⟩,
   c4_missing_attr_amended envTriv 0 gMix "Graph" "size" "c" (.str "degree") false 16
     false "" "YlGnBu" "" 1 (by decide) (by decide) (by decide) (by decide) (by decide)⟩

/-- C5: for a string `color_method` other than `degree`, each node's
color entry is its value for that attribute when the node carries it, and
the string itself as a literal color otherwise; in particular, when the
string matches a node attribute present on every node each node uses its
own value, and when it matches no attribute at all every node receives
the literal color. -/
theorem c5_color_policy (g : Graph) (sm : SCMethod) (cs cbt : String)
    (nt : List String) (se : Bool) (c : String) (hc : c ≠ "degree")
    (h : exceptOk (generateScatterTrace g sm (.str c) cs cbt nt se) = true) :
    (gstOr (generateScatterTrace g sm (.str c) cs cbt nt se)).1.color =
      g.nodes.map (colorVal g c) := by
  cases hp : generateScatterTrace g sm (.str c) cs cbt nt se with
  | error err => rw [hp] at h; simp [exceptOk] at h
  | ok r =>
    simp only [gstOr]
    obtain ⟨est, nst, he, hn, hr⟩ := gst_ok_inv hp
    subst hr
    show nst.colors = g.nodes.map (colorVal g c)
    have hcol := nodeLoop_colors_attr hc hn
    simpa using hcol

theorem c5_color_policy_witness :
    ("grp" ≠ "degree") ∧
    exceptOk (generateScatterTrace gMix (.str "static") (.str "grp") "YlGnBu" "" []
      false) = true ∧
    (gstOr (generateScatterTrace gMix (.str "static") (.str "grp") "YlGnBu" "" []
      false)).1.color = gMix.nodes.map (colorVal gMix "grp") ∧
    gMix.nodes.map (colorVal gMix "grp") = [PyVal.int 5, PyVal.str "grp"] :=
  ⟨by decide, by decide,
   c5_color_policy gMix (.str "static") "YlGnBu" "" [] false "grp" (by decide)
     (by decide),
   by decide⟩

/-- C6: with `size_method = "degree"` every node with degree d receives
marker size d + 12, and with `size_method = "static"` every node receives
marker size 12 regardless of degree. -/
theorem c6_sizing_policy (g : Graph) (cm : SCMethod) (cs cbt : String)
    (nt : List String) (se : Bool)
    (hdeg : exceptOk (generateScatterTrace g (.str "degree") cm cs cbt nt se) = true)
    (hstat : exceptOk (generateScatterTrace g (.str "static") cm cs cbt nt se) = true) :
    (gstOr (generateScatterTrace g (.str "degree") cm cs cbt nt se)).1.size =
      g.nodes.map (fun n => PyVal.int (g.degree n + 12)) ∧
    (gstOr (generateScatterTrace g (.str "static") cm cs cbt nt se)).1.size =
      g.nodes.map (fun _ => PyVal.int 12) := by
  constructor
  · cases hp : generateScatterTrace g (.str "degree") cm cs cbt nt se with
    | error err => rw [hp] at hdeg; simp [exceptOk] at hdeg
    | ok r =>
      simp only [gstOr]
      obtain ⟨est, nst, he, hn, hr⟩ := gst_ok_inv hp
      subst hr
      show nst.sizes = g.nodes.map (fun n => PyVal.int (g.degree n + 12))
      have hsz := nodeLoop_sizes_degree hn
      simpa using hsz
  · cases hp : generateScatterTrace g (.str "static") cm cs cbt nt se with
    | error err => rw [hp] at hstat; simp [exceptOk] at hstat
    | ok r =>
      simp only [gstOr]
      obtain ⟨est, nst, he, hn, hr⟩ := gst_ok_inv hp
      subst hr
      show nst.sizes = g.nodes.map (fun _ => PyVal.int 12)
      have hsz := nodeLoop_sizes_static hn
      simpa using hsz

theorem c6_sizing_policy_witness :
    exceptOk (generateScatterTrace gPath (.str "degree") (.str "degree") "YlGnBu" "" []
      false) = true ∧
    exceptOk (generateScatterTrace gPath (.str "static") (.str "degree") "YlGnBu" "" []
      false) = true ∧
    (gstOr (generateScatterTrace gPath (.str "degree") (.str "degree") "YlGnBu" "" []
      false)).1.size = gPath.nodes.map (fun n => PyVal.int (gPath.degree n + 12)) ∧
    (gstOr (generateScatterTrace gPath (.str "static") (.str "degree") "YlGnBu" "" []
      false)).1.size = gPath.nodes.map (fun _ => PyVal.int 12) ∧
    gPath.nodes.map (fun n => PyVal.int (gPath.degree n + 12)) =
      [PyVal.int 13, PyVal.int 14, PyVal.int 13] :=
  ⟨by decide, by decide,
   (c6_sizing_policy gPath (.str "degree") "YlGnBu" "" [] false (by decide)
     (by decide)).1,
   (c6_sizing_policy gPath (.str "degree") "YlGnBu" "" [] false (by decide)
     (by decide)).2,
   by decide⟩

/-- C7: when no layout name is given and at least one node already has a
position, the layout step returns the graph unchanged, so every node's
position is left untouched, and running the step twice equals running it
once. -/
theorem c7_layout_skip_idempotent (env : LayoutEnv) (seed : Nat) (g : Graph)
    (h : getNodeAttrs g "pos" ≠ []) :
    layoutStep env seed g none = .ok g ∧
      (layoutStep env seed g none).bind (fun g2 => layoutStep env seed g2 none) =
        layoutStep env seed g none := by
  have h1 := @layoutStep_none_ok env seed g h
  refine ⟨h1, ?_⟩
  rw [h1]
  show layoutStep env seed g none = Except.ok g
  exact h1

theorem c7_layout_skip_idempotent_witness :
    getNodeAttrs gPath "pos" ≠ [] ∧
    layoutStep envTriv 0 gPath none = Except.ok gPath ∧
    (layoutStep envTriv 0 gPath none).bind (fun g2 => layoutStep envTriv 0 g2 none) =
      layoutStep envTriv 0 gPath none :=
  ⟨by decide,
   (c7_layout_skip_idempotent envTriv 0 gPath (by decide)).1,
   (c7_layout_skip_idempotent envTriv 0 gPath (by decide)).2⟩

/-- C8: when figure assembly succeeds, the annotation list consists of
exactly one caption annotation followed, for a directed graph, by one
arrow annotation per edge anchored at the source node's position and
pointing at the target node's position; for an undirected graph no arrow
annotations are added. -/
theorem c8_directed_arrows (g : Graph) (nt : NodeTrace) (et : EdgeTrace)
    (mt : MiddleTrace) (title : String) (tfs : Nat) (sl : Bool) (ann : String)
    (h : exceptOk (generateFigure g nt et mt title tfs sl ann) = true) :
    (figOr (generateFigure g nt et mt title tfs sl ann)).annos =
      Anno.caption ann ::
        (if g.directed then
          g.edges.map (fun e =>
            Anno.arrow (posx g e.src) (posy g e.src) (posx g e.dst) (posy g e.dst))
        else []) ∧
    (((figOr (generateFigure g nt et mt title tfs sl ann)).annos.filter isArrow).length
      = if g.directed then g.edges.length else 0) ∧
    (((figOr (generateFigure g nt et mt title tfs sl ann)).annos.filter
      isCaption).length = 1) := by
  cases hp : generateFigure g nt et mt title tfs sl ann with
  | error err => rw [hp] at h; simp [exceptOk] at h
  | ok fig =>
    simp only [figOr]
    obtain ⟨-, -, -, -, -, -, hannos⟩ := generateFigure_ok_inv hp
    refine ⟨hannos, ?_, ?_⟩
    · rw [hannos]
      by_cases hdir : g.directed = true
      · rw [if_pos hdir, if_pos hdir]
        simp [List.filter_cons, isArrow, filter_isArrow_arrows]
      · rw [if_neg hdir, if_neg hdir]
        simp [isArrow]
    · rw [hannos]
      by_cases hdir : g.directed = true
      · rw [if_pos hdir]
        simp [List.filter_cons, isCaption, filter_isCaption_arrows]
      · rw [if_neg hdir]
        simp [isCaption]

theorem c8_directed_arrows_witness :
    exceptOk (generateFigure gAnti emptyNodeTrace { x := [], y := [] }
      { x := [], y := [], text := [] } "Graph" 16 false "") = true ∧
    ((figOr (generateFigure gAnti emptyNodeTrace { x := [], y := [] }
        { x := [], y := [], text := [] } "Graph" 16 false "")).annos =
      Anno.caption "" ::
        (if gAnti.directed then
          gAnti.edges.map (fun e =>
            Anno.arrow (posx gAnti e.src) (posy gAnti e.src) (posx gAnti e.dst)
              (posy gAnti e.dst))
        else []) ∧
    (((figOr (generateFigure gAnti emptyNodeTrace { x := [], y := [] }
        { x := [], y := [], text := [] } "Graph" 16 false "")).annos.filter
      isArrow).length = if gAnti.directed then gAnti.edges.length else 0) ∧
    (((figOr (generateFigure gAnti emptyNodeTrace { x := [], y := [] }
        { x := [], y := [], text := [] } "Graph" 16 false "")).annos.filter
      isCaption).length = 1)) :=
  ⟨by decide,
   c8_directed_arrows gAnti emptyNodeTrace { x := [], y := [] }
     { x := [], y := [], text := [] } "Graph" 16 false "" (by decide)⟩

/-- C9: for every fixed recognized layout name other than `random` and
every fixed graph, two invocations of the layout step with different
draws of the external entropy source produce identical results; only the
`random` layout consumes entropy in the model of the external layout
algorithms. -/
theorem c9_layout_determinism (env : LayoutEnv) (seed1 seed2 : Nat) (g : Graph)
    (name : String)
    (h : name ∈ ["circular", "kamada", "planar", "spring", "spectral", "spiral"]) :
    applyLayout env seed1 g name = applyLayout env seed2 g name ∧
      layoutStep env seed1 g (some name) = layoutStep env seed2 g (some name) := by
  have hlf := @layout_functions_det env seed1 seed2 name h
  have htr : optStrTruthy (some name) = true := by
    simp only [List.mem_cons, List.not_mem_nil, or_false] at h
    rcases h with rfl | rfl | rfl | rfl | rfl | rfl <;> decide
  constructor
  · unfold applyLayout
    rw [hlf]
  · unfold layoutStep
    rw [if_pos htr, if_pos htr]
    show applyLayout env seed1 g name = applyLayout env seed2 g name
    unfold applyLayout
    rw [hlf]

theorem c9_layout_determinism_witness :
    ("circular" ∈ ["circular", "kamada", "planar", "spring", "spectral", "spiral"]) ∧
    applyLayout envTriv 0 gPath "circular" = applyLayout envTriv 1 gPath "circular" ∧
    layoutStep envTriv 0 gPath (some "circular") =
      layoutStep envTriv 1 gPath (some "circular") :=
  ⟨by decide,
   (c9_layout_determinism envTriv 0 1 gPath "circular" (by decide)).1,
   (c9_layout_determinism envTriv 0 1 gPath "circular" (by decide)).2⟩

/-- C10: when the node-text list names an attribute that some node lacks,
`plot` (with the default degree sizing, any coloring, positions present)
fails with a missing-key error at the first such node, naming the first
missing property, while building that node's hover text. -/
theorem c10_node_text_missing (env : LayoutEnv) (seed : Nat) (g : Graph)
    (title : String) (cm : SCMethod) (nt : List String) (se : Bool) (tfs : Nat)
    (sl : Bool) (ann cs cbt : String) (n0 : NodeId) (p0 : String)
    (hA : allPos g = true) (hE : edgesWF g = true)
    (hm : firstTextMiss g nt g.nodes = some (n0, p0)) :
    plot env seed g title none (.str "degree") cm nt se tfs sl ann cs cbt =
      .error (.keyError n0 p0) := by
  have hmem : n0 ∈ g.nodes := firstTextMiss_mem hm
  have hne := getNodeAttrs_ne_nil hmem (hasPtPos_of_allPos hA hmem)
  have hl := @layoutStep_none_ok env seed g hne
  obtain ⟨est, he⟩ := @edgeLoop_ok_of g se g.edges
    { ex := [], ey := [], mx := [], my := [], props := [] }
    (fun e hm2 => ⟨hasPtPos_of_allPos hA (endpoints_of_edgesWF hE hm2).1,
                   hasPtPos_of_allPos hA (endpoints_of_edgesWF hE hm2).2⟩)
  have hnl := @nodeLoop_text_err g cm nt g.nodes
    { nx := [], ny := [], ntext := [], sizes := [], colors := [] } n0 p0
    (fun n hn => hasPtPos_of_allPos hA hn) hm
  exact plot_gst_err hl (gst_err_of_nodeLoop he hnl)

theorem c10_node_text_missing_witness :
    (allPos gMix = true ∧ edgesWF gMix = true ∧
      firstTextMiss gMix ["grp"] gMix.nodes = some (1, "grp")) ∧
    plot envTriv 0 gMix "Graph" none (.str "degree") (.str "degree") ["grp"] false 16
      false "" "YlGnBu" "" = Except.error (.keyError 1 "grp") :=
  ⟨⟨by decide, by decide, by decide⟩,
   c10_node_text_missing envTriv 0 gMix "Graph" (.str "degree") ["grp"] false 16 false
     "" "YlGnBu" "" 1 "grp" (by decide) (by decide) (by decide)⟩

end Igviz
